import Mathlib

/-!
Verification development for the PandoraLauncher backend.

This file gives a shallow embedding, in Lean 4, of the parts of the
launcher's backend crate that the verified properties talk about:

* the content-source index (`crates/backend/src/mod_metadata.rs`,
  `ContentSources`), including its binary on-disk shard format;
* the persistent JSON document (`crates/backend/src/persistent.rs`);
* the atomic file writer `write_safe` and the path helper
  `is_single_component_path` (`crates/backend/src/lib.rs`);
* instance creation (`crates/backend/src/backend.rs`);
* the content loaders and generational content IDs
  (`crates/backend/src/instance.rs`);
* the content installer (`crates/backend/src/install_content.rs`).

Rust `u8` bytes are modelled as `Nat` (all byte values produced by the
embedded code are < 256 by construction; where a byte is read from an
arbitrary input it is constrained in the validity predicates).  Strings
are modelled as Lean `String` where the Rust code works with `str`, and
as `List Nat` (raw byte lists) where the Rust code works with byte
buffers.  Filesystem state is modelled as an association list from path
strings to file contents; fallible IO is driven by explicit oracle
parameters.  Everything is executable.
-/

namespace Pandora

/-! ## Content sources (`mod_metadata.rs`)

`ContentSource` is `schema::content::ContentSource`:
`Manual | ModrinthUnknown | ModrinthProject { project: Arc<str> }`.
The project id (a Rust `Arc<str>`) is modelled as its UTF-8 byte list;
Rust `str` equality and ordering are byte-wise, which the model
preserves.
-/

inductive ContentSource where
  | Manual : ContentSource
  | ModrinthUnknown : ContentSource
  | ModrinthProject : (project : List Nat) → ContentSource
deriving DecidableEq, Repr

/-- A 19-byte key suffix (`hash[1..]` of a 20-byte SHA-1). -/
abbrev KeySuffix := List Nat

/-- Lexicographic comparison of byte sequences, as Rust's `Ord` on
`&[u8]` / `[u8; 19]`. -/
def compareBytes : List Nat → List Nat → Ordering
  | [], [] => .eq
  | [], _ :: _ => .lt
  | _ :: _, [] => .gt
  | a :: as, b :: bs =>
    (compare a b).then (compareBytes as bs)

/-- Result of `slice::binary_search_by_key`: `.inl i` means the key was
found at index `i`, `.inr i` means it is absent and `i` is the sorted
insertion point.  Rust's binary search contract specifies the result
only for slices sorted by the key; the shards searched by
`ContentSources` are kept sorted by construction.  The model computes
the same answer by a left-to-right scan, which agrees with binary
search on every sorted slice with unique keys. -/
def searchByKey (values : List (KeySuffix × ContentSource)) (key : KeySuffix) :
    Nat ⊕ Nat :=
  match values with
  | [] => .inr 0
  | (k, _) :: rest =>
    match compareBytes key k with
    | .lt => .inr 0
    | .eq => .inl 0
    | .gt =>
      match searchByKey rest key with
      | .inl i => .inl (i + 1)
      | .inr i => .inr (i + 1)

/-- In-memory source index: 256 shards selected by the first byte of
the 20-byte hash, each a sorted list of `(19-byte key suffix, source)`
(`ContentSources.by_first_byte`). -/
structure ContentSources where
  by_first_byte : Fin 256 → List (KeySuffix × ContentSource)

/-- A 20-byte hash, split as the model's shard selector plus key
suffix. -/
structure Hash20 where
  first : Fin 256
  rest : KeySuffix
deriving DecidableEq

/-- `ContentSources::get`. -/
def ContentSources.get (s : ContentSources) (hash : Hash20) :
    Option ContentSource :=
  match searchByKey (s.by_first_byte hash.first) hash.rest with
  | .inl i => ((s.by_first_byte hash.first).get? i).map (·.2)
  | .inr _ => none

/-- Replace the source at index `i`, keeping the key
(Rust `values[existing].1 = value`). -/
def setAt : List (KeySuffix × ContentSource) → Nat → ContentSource →
    List (KeySuffix × ContentSource)
  | [], _, _ => []
  | kv :: rest, 0, v => (kv.1, v) :: rest
  | kv :: rest, n + 1, v => kv :: setAt rest n v

/-- Replace one shard of the index. -/
def ContentSources.updateShard (s : ContentSources) (b : Fin 256)
    (values : List (KeySuffix × ContentSource)) : ContentSources :=
  ⟨fun x => if x = b then values else s.by_first_byte x⟩

/-- The `skip` decision of `ContentSources::set`, matching on the
existing source (`old_source`) and the incoming `value`. -/
def skipSet : Option ContentSource → ContentSource → Bool
  | some .Manual, value => value == .Manual
  | some .ModrinthUnknown, value => value == .ModrinthUnknown
  | some (.ModrinthProject p), value =>
    (ContentSource.ModrinthProject p == value) || (value == .ModrinthUnknown)
  | none, _ => false

/-- `ContentSources::set`: returns the updated index together with the
`bool` telling whether the shard changed. -/
def ContentSources.set (s : ContentSources) (hash : Hash20)
    (value : ContentSource) : ContentSources × Bool :=
  match searchByKey (s.by_first_byte hash.first) hash.rest with
  | .inl existing =>
    if skipSet (((s.by_first_byte hash.first).get? existing).map (·.2)) value then
      (s, false)
    else
      (s.updateShard hash.first
        (setAt (s.by_first_byte hash.first) existing value), true)
  | .inr new =>
    (s.updateShard hash.first
      ((s.by_first_byte hash.first).insertIdx new (hash.rest, value)), true)

/-! ### On-disk shard format (`ContentSources::write` / `load_all`)

A shard file is a sequence of records
`key[19] | kind[1] | param[1] | project_id_bytes[param]?`.
The model works on byte lists; the directory written by
`write_all_to_file` is modelled as a list of `(file name, file bytes)`
pairs.  `ContentSources::write` panics when a project id is longer
than 127 bytes, so the serializers return `Option`, `none` standing
for the panic. -/

/-- Rust's `str::from_utf8` validation, byte for byte (RFC 3629
shortest-form UTF-8).  A Rust `str` is exactly a byte buffer for which
this check holds, so the parsed project id is modelled as the raw byte
list. -/
def validUtf8 : List Nat → Bool
  | [] => true
  | b :: rest =>
    if b < 0x80 then validUtf8 rest
    else if 0xC2 ≤ b ∧ b ≤ 0xDF then
      match rest with
      | c1 :: rest' => decide (0x80 ≤ c1 ∧ c1 ≤ 0xBF) && validUtf8 rest'
      | [] => false
    else if 0xE0 ≤ b ∧ b ≤ 0xEF then
      match rest with
      | c1 :: c2 :: rest' =>
        (if b = 0xE0 then decide (0xA0 ≤ c1 ∧ c1 ≤ 0xBF)
         else if b = 0xED then decide (0x80 ≤ c1 ∧ c1 ≤ 0x9F)
         else decide (0x80 ≤ c1 ∧ c1 ≤ 0xBF)) &&
        decide (0x80 ≤ c2 ∧ c2 ≤ 0xBF) && validUtf8 rest'
      | _ => false
    else if 0xF0 ≤ b ∧ b ≤ 0xF4 then
      match rest with
      | c1 :: c2 :: c3 :: rest' =>
        (if b = 0xF0 then decide (0x90 ≤ c1 ∧ c1 ≤ 0xBF)
         else if b = 0xF4 then decide (0x80 ≤ c1 ∧ c1 ≤ 0x8F)
         else decide (0x80 ≤ c1 ∧ c1 ≤ 0xBF)) &&
        decide (0x80 ≤ c2 ∧ c2 ≤ 0xBF) &&
        decide (0x80 ≤ c3 ∧ c3 ≤ 0xBF) && validUtf8 rest'
      | _ => false
    else false

/-- `ContentSources::write`: the bytes appended for one record.
`none` models the `panic!` on a project id longer than 127 bytes. -/
def writeRecord (key : KeySuffix) : ContentSource → Option (List Nat)
  | .Manual => some (key ++ [0, 0])
  | .ModrinthUnknown => some (key ++ [1, 0])
  | .ModrinthProject p =>
    if p.length > 127 then none
    else some (key ++ [2, p.length] ++ p)

/-- The byte contents of one shard file (`write_to_file`'s `data`
buffer). -/
def serializeShard : List (KeySuffix × ContentSource) → Option (List Nat)
  | [] => some []
  | (k, s) :: rest =>
    match writeRecord k s, serializeShard rest with
    | some r, some rs => some (r ++ rs)
    | _, _ => none

/-- Hex value of one character, as accepted by the `hex` crate
(both cases). -/
def hexDigitVal (c : Char) : Option Nat :=
  if '0' ≤ c ∧ c ≤ '9' then some (c.toNat - '0'.toNat)
  else if 'a' ≤ c ∧ c ≤ 'f' then some (c.toNat - 'a'.toNat + 10)
  else if 'A' ≤ c ∧ c ≤ 'F' then some (c.toNat - 'A'.toNat + 10)
  else none

/-- `hex::encode` of a single byte: two lowercase hex digits. -/
def hexEncodeByte (b : Nat) : String :=
  String.mk [Nat.digitChar (b / 16 % 16), Nat.digitChar (b % 16)]

/-- Shard-file-name decoding in `load_all`: the name must be exactly
two characters and decode as one hex byte
(`hex::decode_to_slice(filename, &mut [0u8; 1])`). -/
def decodeShardName (name : String) : Option (Fin 256) :=
  match name.data with
  | [c1, c2] =>
    match hexDigitVal c1, hexDigitVal c2 with
    | some h, some l =>
      -- `hexDigitVal` only returns values below 16, so the guard never
      -- fails; it is here only to build the `Fin 256`.
      if hlt : h * 16 + l < 256 then some ⟨h * 16 + l, hlt⟩ else none
    | _, _ => none
  | _ => none

/-- Sorted insert-or-replace used by `load_all`
(`binary_search_by_key` then `values[existing] = …` or
`values.insert(new, …)`). -/
def insertRecord (values : List (KeySuffix × ContentSource)) (key : KeySuffix)
    (source : ContentSource) : List (KeySuffix × ContentSource) :=
  match searchByKey values key with
  | .inl existing => values.set existing (key, source)
  | .inr new => values.insertIdx new (key, source)

/-- The record-reading loop of `load_all` for one shard file: reads the
19-byte key, the kind byte (offset 19) and the param byte (offset 20);
kind `2` additionally reads the project id and skips the record when it
is not valid UTF-8; unknown kinds are skipped using the param length;
truncated reads stop the loop.  (The two `read_exact` failure exits of
the Rust loop are merged into the single guard `data.length < 21`,
which stops in exactly the same situations.) -/
def parseShardLoop (data : List Nat)
    (values : List (KeySuffix × ContentSource)) :
    List (KeySuffix × ContentSource) :=
  if h21 : data.length < 21 then values
  else if data.getD 19 0 = 0 then
    parseShardLoop (data.drop 21) (insertRecord values (data.take 19) .Manual)
  else if data.getD 19 0 = 1 then
    parseShardLoop (data.drop 21)
      (insertRecord values (data.take 19) .ModrinthUnknown)
  else if data.getD 19 0 = 2 then
    if data.length - 21 < data.getD 20 0 then values
    else if validUtf8 ((data.drop 21).take (data.getD 20 0)) then
      parseShardLoop (data.drop (21 + data.getD 20 0))
        (insertRecord values (data.take 19)
          (.ModrinthProject ((data.drop 21).take (data.getD 20 0))))
    else parseShardLoop (data.drop (21 + data.getD 20 0)) values
  else parseShardLoop (data.drop (21 + data.getD 20 0)) values
termination_by data.length
decreasing_by
  all_goals
    simp_wf
    omega

/-- `ContentSources::load_all`, folding the directory entries into the
256 shards. -/
def loadAllAux : List (String × List Nat) →
    (Fin 256 → List (KeySuffix × ContentSource)) →
    (Fin 256 → List (KeySuffix × ContentSource))
  | [], acc => acc
  | (name, data) :: rest, acc =>
    match decodeShardName name with
    | some b =>
      loadAllAux rest (fun x => if x = b then parseShardLoop data (acc b) else acc x)
    | none => loadAllAux rest acc

/-- `ContentSources::load_all` over a directory listing. -/
def ContentSources.load_all (entries : List (String × List Nat)) :
    ContentSources :=
  ⟨loadAllAux entries (fun _ => [])⟩

/-- `ContentSources::write_all_to_file`: one file per non-empty shard,
named by the two-hex-digit first byte.  `none` models the panic on an
oversized project id. -/
def writeAllAux (s : ContentSources) : List (Fin 256) →
    Option (List (String × List Nat))
  | [] => some []
  | b :: bs =>
    if (s.by_first_byte b).isEmpty then writeAllAux s bs
    else
      match serializeShard (s.by_first_byte b), writeAllAux s bs with
      | some data, some rest => some ((hexEncodeByte b.val, data) :: rest)
      | _, _ => none

def ContentSources.write_all_to_file (s : ContentSources) :
    Option (List (String × List Nat)) :=
  writeAllAux s (List.finRange 256)

/-- Validity of one in-memory shard entry: the key suffix is 19 bytes
(it is a `[u8; 19]` in the Rust code) and a project id is valid UTF-8
of at most 127 bytes (it is an `Arc<str>`, and `write` panics above
127). -/
def ValidEntry : KeySuffix × ContentSource → Prop
  | (k, .ModrinthProject p) => k.length = 19 ∧ validUtf8 p = true ∧ p.length ≤ 127
  | (k, _) => k.length = 19

/-- Validity of a whole in-memory index: every shard is strictly
sorted by key (hence has unique keys) and all entries are valid. -/
def ValidSources (s : ContentSources) : Prop :=
  ∀ b : Fin 256,
    (s.by_first_byte b).Pairwise (fun x y => compareBytes x.1 y.1 = .lt) ∧
    ∀ e ∈ s.by_first_byte b, ValidEntry e

instance (e : KeySuffix × ContentSource) : Decidable (ValidEntry e) := by
  obtain ⟨k, src⟩ := e
  cases src <;> simp only [ValidEntry] <;> infer_instance

instance (s : ContentSources) : Decidable (ValidSources s) := by
  unfold ValidSources
  infer_instance


/-! ## Persistent documents (`persistent.rs`)

`Persistent<T>` holds a path, a `dirty` flag and an in-memory value.
IO outcomes (the JSON read, serialization, and the atomic write) are
supplied by an explicit environment record, one per operation. -/

structure Persistent (T : Type) where
  path : String
  dirty : Bool
  data : T

/-- The IO outcomes a single `Persistent` operation can observe:
what `crate::read_json(&self.path)` would currently return, whether
`serde_json::to_vec` succeeds, and whether `crate::write_safe`
succeeds. -/
structure PersistentEnv (T : Type) where
  readJson : Option T
  serializeOk : Bool
  writeOk : Bool

/-- `Persistent::load_from_disk`: clears `dirty`, then replaces the
value only if the read succeeds. -/
def Persistent.load_from_disk {T : Type} (env : PersistentEnv T)
    (p : Persistent T) : Persistent T :=
  let p1 : Persistent T := { p with dirty := false }
  match env.readJson with
  | none => p1
  | some d => { p1 with data := d }

/-- `Persistent::modify`: reload if dirty, mutate, serialize, write;
only a successful write sets the `dirty` flag. -/
def Persistent.modify {T : Type} (env : PersistentEnv T)
    (p : Persistent T) (func : T → T) : Persistent T :=
  let p1 := if p.dirty then p.load_from_disk env else p
  let p2 : Persistent T := { p1 with data := func p1.data }
  if env.serializeOk then
    if env.writeOk then { p2 with dirty := true } else p2
  else p2

/-- `Persistent::get`: reload if dirty, then return the value (paired
with the possibly updated document). -/
def Persistent.get {T : Type} (env : PersistentEnv T)
    (p : Persistent T) : Persistent T × T :=
  let p1 := if p.dirty then p.load_from_disk env else p
  (p1, p1.data)

/-! ## Atomic file write (`lib.rs`, `write_safe`)

The filesystem is a map from path strings to byte contents; each
fallible IO step's outcome is an environment flag.  `create_dir_all`'s
result is discarded by the code (`let _ = …`), so only the attempt is
recorded. -/

abbrev FS := String → Option (List Nat)

def fsSet (fs : FS) (p : String) (c : List Nat) : FS :=
  fun q => if q = p then some c else fs q

def fsRemove (fs : FS) (p : String) : FS :=
  fun q => if q = p then none else fs q

/-- Rust `Path::parent` on a path string: `none` only for the empty
path, otherwise everything before the final separator (the empty
string for a single-component relative path). -/
def parentDir (path : String) : Option String :=
  if path = "" then none
  else if path.data.contains '/' then
    some (String.mk (path.data.take (path.data.length -
      1 - (path.data.reverse.takeWhile (· ≠ '/')).length)))
  else some ""

inductive WriteSafeError where
  | create | write | flush | sync | rename
deriving DecidableEq, Repr

structure WriteSafeEnv where
  createOk : Bool
  writeOk : Bool
  flushOk : Bool
  syncOk : Bool
  renameOk : Bool

structure WriteSafeResult where
  fs : FS
  /-- `create_dir_all` was attempted on this directory (result ignored). -/
  createdParentOf : Option String
  error : Option WriteSafeError

/-- `write_safe(path, content)`: create the parent (ignoring errors),
create and fill `<path>.new` (`add_extension("new")`), flush, fsync,
rename over the target.  Each `?` is an early return carrying the
error; the temp file is left behind by every failing step after its
creation. -/
def write_safe (env : WriteSafeEnv) (fs : FS) (path : String)
    (content : List Nat) : WriteSafeResult :=
  let parent := parentDir path
  let temp := path ++ ".new"
  if !env.createOk then
    { fs := fs, createdParentOf := parent, error := some .create }
  else
    -- `File::create` truncates or creates the temp file.
    let fs1 := fsSet fs temp []
    if !env.writeOk then
      { fs := fs1, createdParentOf := parent, error := some .write }
    else
      let fs2 := fsSet fs1 temp content
      if !env.flushOk then
        { fs := fs2, createdParentOf := parent, error := some .flush }
      else if !env.syncOk then
        { fs := fs2, createdParentOf := parent, error := some .sync }
      else if !env.renameOk then
        -- `std::fs::rename(temp, path)?` — the error propagates and the
        -- temp file is NOT removed.
        { fs := fs2, createdParentOf := parent, error := some .rename }
      else
        { fs := fsSet (fsRemove fs2 temp) path content,
          createdParentOf := parent, error := none }

/-! ## Instance creation (`backend.rs`)

`create_instance` validates the name with `is_single_component_path`
(`lib.rs`) and the `sanitize_filename` crate's Windows rule set, then
writes the instance directory and its `info_v1.json`. -/

/-- Modelled from the spec: `schema::loader::Loader` (its source file
is not in the provided tree).  The glossary lists the loaders Vanilla,
Fabric, Forge and NeoForge; the backend additionally matches on
`Loader::Unknown`. -/
inductive Loader where
  | Vanilla | Fabric | Forge | NeoForge | Unknown
deriving DecidableEq, Repr

/-- One component of a path, as in Rust's `std::path::Component`
(Unix: no prefixes). -/
inductive PathComponent where
  | rootDir
  | curDir
  | parentDir
  | normal (s : String)
deriving DecidableEq, Repr

/-- Split a character list on a separator (the char-level equivalent of
`str::split`), used to keep the path model kernel-evaluable. -/
def splitOnChar (sep : Char) : List Char → List (List Char)
  | [] => [[]]
  | c :: rest =>
    if c = sep then [] :: splitOnChar sep rest
    else
      match splitOnChar sep rest with
      | h :: t => (c :: h) :: t
      | [] => [[c]]

/-- Rust `Path::components` on Unix: a leading `/` is `RootDir`; empty
segments and `.` segments are normalized away, except that a path
beginning with a `.` component keeps that leading `CurDir`; `..`
segments are `ParentDir`; everything else is `Normal`. -/
def pathComponents (p : String) : List PathComponent :=
  let cs := p.data
  let hasRoot := cs.head? = some '/'
  let parts := (splitOnChar '/' cs).filter
    (fun s => s ≠ [] && s ≠ ['.'])
  let comps := parts.map
    (fun s => if s = ['.', '.'] then PathComponent.parentDir
              else .normal (String.mk s))
  if hasRoot then .rootDir :: comps
  else if cs = ['.'] ∨ cs.take 2 = ['.', '/'] then .curDir :: comps
  else comps

/-- `is_single_component_path` (`lib.rs`): the first component must be
`Normal` and the component count must be exactly one. -/
def is_single_component_path (p : String) : Bool :=
  match pathComponents p with
  | [] => false
  | first :: rest =>
    (match first with | .normal _ => true | _ => false) &&
    (first :: rest).length == 1

/-! ### The `sanitize_filename` crate (external dependency), with
`Options/OptionsForCheck { windows: true, truncate: true (default) }`.
Its rules: remove/reject the characters `/?<>\\:*|"`, the control
characters U+0000–U+001F and U+0080–U+009F, a name consisting only of
dots, Windows reserved device names (`con`, `prn`, `aux`, `nul`,
`com0`–`com9`, `lpt0`–`lpt9`, case-insensitively, optionally followed
by a dot and anything), trailing dots or spaces, and (for
check/truncate) names longer than 255 UTF-8 bytes. -/

def isIllegalFilenameChar (c : Char) : Bool :=
  c = '/' || c = '?' || c = '<' || c = '>' || c = '\\' ||
  c = ':' || c = '*' || c = '|' || c = '\"'

def isControlFilenameChar (c : Char) : Bool :=
  c.toNat < 0x20 || (0x80 ≤ c.toNat && c.toNat ≤ 0x9f)

/-- The Windows reserved device-name stems. -/
def windowsReservedStems : List String :=
  ["con", "prn", "aux", "nul",
   "com0", "com1", "com2", "com3", "com4", "com5", "com6", "com7",
   "com8", "com9",
   "lpt0", "lpt1", "lpt2", "lpt3", "lpt4", "lpt5", "lpt6", "lpt7",
   "lpt8", "lpt9"]

/-- `WINDOWS_RESERVED_RE`: `(?i)^(con|prn|aux|nul|com[0-9]|lpt[0-9])(\\..*)?$`:
the part before the first dot (or the whole name) is a reserved stem,
case-insensitively. -/
def isWindowsReservedName (name : String) : Bool :=
  let lower := String.mk (name.data.map Char.toLower)
  let stem := String.mk (lower.data.takeWhile (· ≠ '.'))
  windowsReservedStems.contains stem &&
    (stem.length == lower.length ||
      (lower.data.drop stem.length).head? == some '.')

def isTrailingWindowsChar (c : Char) : Bool := c = '.' || c = ' '

/-- `RESERVED_RE`: `^\\.+$` — a non-empty run of dots and nothing
else. -/
def isReservedDotsName (name : String) : Bool :=
  name ≠ "" && name.data.all (· = '.')

/-- `sanitize_filename::is_sanitized_with_options(name,
OptionsForCheck { windows: true, truncate: true })`. -/
def isSanitizedWindows (name : String) : Bool :=
  !(name.data.any isIllegalFilenameChar) &&
  !(name.data.any isControlFilenameChar) &&
  !(isReservedDotsName name) &&
  name.utf8ByteSize ≤ 255 &&
  !(isWindowsReservedName name) &&
  !((name.data.reverse.head?.map isTrailingWindowsChar).getD false)

/-- Keep the longest prefix of the characters that fits in `budget`
UTF-8 bytes (the crate's char-boundary-respecting truncation). -/
def takeUtf8Bytes : List Char → Nat → List Char
  | [], _ => []
  | c :: cs, budget =>
    if c.utf8Size ≤ budget then c :: takeUtf8Bytes cs (budget - c.utf8Size)
    else []

/-- `sanitize_filename::sanitize_with_options(name,
Options { windows: true, truncate: true, replacement: "" })`:
remove illegal and control characters, erase an all-dots name, erase a
Windows reserved name, strip trailing dots and spaces, truncate to 255
bytes. -/
def sanitizeWindows (name : String) : String :=
  let s1 := String.mk (name.data.filter (fun c => !(isIllegalFilenameChar c)))
  let s2 := String.mk (s1.data.filter (fun c => !(isControlFilenameChar c)))
  let s3 := if isReservedDotsName s2 then "" else s2
  let s4 := if isWindowsReservedName s3 then "" else s3
  let s5 := String.mk
    (s4.data.reverse.dropWhile isTrailingWindowsChar).reverse
  if s5.utf8ByteSize > 255 then String.mk (takeUtf8Bytes s5.data 255) else s5

/-- The observable outcome of a `create_instance` call: the returned
directory, the warnings sent to the frontend, and the filesystem
writes. -/
inductive CreateWarning where
  | unknownLoader | nameIsPath | nameInvalid | nameTaken
deriving DecidableEq, Repr

structure CreateEnv where
  /-- The names of the currently loaded instances
  (`self.instance_state.read().instances`). -/
  usedNames : List String
  /-- `self.directories.instances_dir`. -/
  instancesDir : String

structure CreateInstanceResult where
  /-- The `Option<PathBuf>` returned. -/
  result : Option String
  warnings : List CreateWarning
  /-- `create_dir_all(&instance_dir)` attempted on this directory. -/
  wroteDir : Option String
  /-- `write_safe(&info_path, …)` written to this path. -/
  wroteInfo : Option String
deriving DecidableEq, Repr

/-- `BackendState::create_instance` (the in-memory filesystem model
always accepts writes; the code ignores the `create_dir_all` result
and unwraps the `write_safe` result). -/
def create_instance (env : CreateEnv) (name : String) (_version : String)
    (loader : Loader) : CreateInstanceResult :=
  if loader = .Unknown then
    ⟨none, [.unknownLoader], none, none⟩
  else if !(is_single_component_path name) then
    ⟨none, [.nameIsPath], none, none⟩
  else if !(isSanitizedWindows name) then
    ⟨none, [.nameInvalid], none, none⟩
  else if env.usedNames.contains name then
    ⟨none, [.nameTaken], none, none⟩
  else
    let instance_dir := env.instancesDir ++ "/" ++ name
    ⟨some instance_dir, [], some instance_dir,
      some (instance_dir ++ "/info_v1.json")⟩

/-- The suffix-probing loop of `create_instance_sanitized`
(`for i in 1..32 { … }`): the first `"<name> (i)"` not in use, if
any. -/
def firstFreeSuffix (used : List String) (name : String) :
    List Nat → Option String
  | [] => none
  | i :: is =>
    let cand := name ++ " (" ++ toString i ++ ")"
    if used.contains cand then firstFreeSuffix used name is else some cand

/-- The name `create_instance_sanitized` settles on after sanitizing:
unchanged when free; otherwise the first free suffixed variant, or the
(taken) sanitized name again when `"(1)"`–`"(31)"` are all taken. -/
def chooseSanitizedName (used : List String) (sanitized : String) : String :=
  if used.contains sanitized then
    match firstFreeSuffix used sanitized (List.range' 1 31) with
    | some n => n
    | none => sanitized
  else sanitized

/-- `BackendState::create_instance_sanitized`. -/
def create_instance_sanitized (env : CreateEnv) (name : String)
    (version : String) (loader : Loader) : CreateInstanceResult :=
  create_instance env (chooseSanitizedName env.usedNames (sanitizeWindows name))
    version loader

/-! ## Content loaders (`instance.rs`)

The content snapshot entries.  `ContentSummary` (from the bridge
crate) is reduced to the one field the loaders inspect, its optional
mod `id`; `create_instance_content_summary` — which reads the file,
parses the archive through the metadata manager and reads the sidecar
— is abstracted as an oracle `summarize : path → Option entry`, as is
`Path::exists` and the `DefaultHasher` filename hash. -/

structure InstanceContentID where
  index : Nat
  generation : Nat
deriving DecidableEq, Repr

/-- `InstanceContentID::dangling()`: both fields `usize::MAX`. -/
def InstanceContentID.dangling : InstanceContentID :=
  ⟨2 ^ 64 - 1, 2 ^ 64 - 1⟩

/-- The only `ContentSummary` field the loaders' sort inspects. -/
structure MContentSummary where
  id : Option String
deriving DecidableEq, Repr

structure InstanceContentSummary where
  content_summary : MContentSummary
  id : InstanceContentID
  lowercase_search_keys : List String
  filename : String
  filename_hash : Nat
  path : String
  enabled : Bool
  content_source : ContentSource
  disabled_children : List String
deriving DecidableEq, Repr

/-- Rust `str` ordering (byte-wise lexicographic; UTF-8 byte order
equals code-point order, so comparing code points is faithful). -/
def compareStrings (a b : String) : Ordering :=
  compareBytes (a.data.map Char.toNat) (b.data.map Char.toNat)

/-- `Option<Arc<str>>::cmp`: `None` sorts before `Some`. -/
def compareOptionId : Option String → Option String → Ordering
  | none, none => .eq
  | none, some _ => .lt
  | some _, none => .gt
  | some a, some b => compareStrings a b

/-! ### `lexical_sort::natural_lexical_cmp` (external dependency)

Natural + lexical string comparison: maximal ASCII digit runs compare
by numeric value, all other characters compare case-insensitively; a
digit run against a non-digit compares the first characters.  The
model tokenizes each string (with a structural fuel equal to the
length, which is always sufficient) and compares the token lists
lexicographically. -/

def isDigitChar (c : Char) : Bool := 48 ≤ c.toNat && c.toNat ≤ 57

def digitsToNat (l : List Char) : Nat :=
  l.foldl (fun n c => n * 10 + (c.toNat - 48)) 0

inductive LexToken where
  | num (digits : List Char)
  | chr (c : Char)
deriving DecidableEq, Repr

def tokenizeAux : Nat → List Char → List LexToken
  | 0, _ => []
  | _, [] => []
  | fuel + 1, c :: cs =>
    if isDigitChar c then
      .num (c :: cs.takeWhile isDigitChar) ::
        tokenizeAux fuel (cs.dropWhile isDigitChar)
    else
      .chr c.toLower :: tokenizeAux fuel cs

def tokenize (l : List Char) : List LexToken := tokenizeAux l.length l

def compareLexToken : LexToken → LexToken → Ordering
  | .num d1, .num d2 => compare (digitsToNat d1) (digitsToNat d2)
  | .num d1, .chr c2 => compare ((d1.headD '0').toLower.toNat) c2.toNat
  | .chr c1, .num d2 => compare c1.toNat ((d2.headD '0').toLower.toNat)
  | .chr c1, .chr c2 => compare c1.toNat c2.toNat

def compareLexTokens : List LexToken → List LexToken → Ordering
  | [], [] => .eq
  | [], _ :: _ => .lt
  | _ :: _, [] => .gt
  | t1 :: r1, t2 :: r2 => (compareLexToken t1 t2).then (compareLexTokens r1 r2)

/-- `lexical_sort::natural_lexical_cmp`. -/
def naturalLexicalCmp (a b : String) : Ordering :=
  compareLexTokens (tokenize a.data) (tokenize b.data)

/-! ### `sort_by` and the two content comparators -/

/-- Stable insertion used to model `slice::sort_by`: the new element
goes after existing elements that do not compare greater. -/
def insertCmp {α : Type} (cmp : α → α → Ordering) (x : α) :
    List α → List α
  | [] => [x]
  | y :: ys => if cmp x y = .lt then x :: y :: ys else y :: insertCmp cmp x ys

/-- `slice::sort_by` modelled as a stable insertion sort (same result
for the comparators used here). -/
def sortByCmp {α : Type} (cmp : α → α → Ordering) (l : List α) : List α :=
  l.foldl (fun acc x => insertCmp cmp x acc) []

/-- The comparator of `Instance::load_content_all`:
`a.content_summary.id.cmp(&b.content_summary.id)
  .then_with(|| natural_lexical_cmp(&a.filename, &b.filename).reverse())`. -/
def cmpContentAll (a b : InstanceContentSummary) : Ordering :=
  (compareOptionId a.content_summary.id b.content_summary.id).then
    (naturalLexicalCmp a.filename b.filename).swap

/-- The comparator of `Instance::load_content_dirty`:
`a.content_summary.id.cmp(&b.content_summary.id)
  .then_with(|| a.filename.cmp(&b.filename).reverse())` — note the
plain (non-natural) string comparison. -/
def cmpContentDirty (a b : InstanceContentSummary) : Ordering :=
  (compareOptionId a.content_summary.id b.content_summary.id).then
    (compareStrings a.filename b.filename).swap

/-- `Instance::load_content_all`: scan the folder (the summary
extraction per file is the oracle `summarize`; files it rejects yield
`none`), then sort. -/
def load_content_all (entries : List String)
    (summarize : String → Option InstanceContentSummary) :
    List InstanceContentSummary :=
  sortByCmp cmpContentAll (entries.filterMap summarize)

/-! ### Path-extension helpers used by the dirty loader -/

/-- The final path component. -/
def fileNamePart (p : String) : List Char :=
  (p.data.reverse.takeWhile (· ≠ '/')).reverse

/-- Rust `Path::extension`: the part of the file name after the last
dot, unless there is no dot or the only dot is the leading one. -/
def pathExtension (p : String) : Option String :=
  let fn := fileNamePart p
  let revAfterDot := fn.reverse.takeWhile (· ≠ '.')
  if revAfterDot.length = fn.length then none
  else if fn.length - revAfterDot.length - 1 = 0 then none
  else some (String.mk revAfterDot.reverse)

/-- Rust `PathBuf::set_extension("")`: drop the extension, when there
is one. -/
def setExtensionEmpty (p : String) : String :=
  match pathExtension p with
  | none => p
  | some e => String.mk (p.data.take (p.data.length - e.length - 1))

/-- `Instance::load_content_dirty`.  `dirty` is the dirty path set (a
`HashSet`; its iteration order is a parameter of the model, which the
sort at the end makes irrelevant to the published order), `summarize`
is `create_instance_content_summary`, `exists` is `Path::exists` and
`hashFn` is the `DefaultHasher` filename hash. -/
def load_content_dirty (dirty : List String)
    (summarize : String → Option InstanceContentSummary)
    (exists_ : String → Bool) (hashFn : String → Nat)
    (last : List InstanceContentSummary) : List InstanceContentSummary :=
  let step1 := dirty.foldl (fun (acc : List InstanceContentSummary × List String) path =>
    let alternate_path :=
      if pathExtension path = some "disabled" then setExtensionEmpty path
      else path ++ ".disabled"
    let check_alternative := !(dirty.contains alternate_path)
    let summaries :=
      match summarize path with
      | some s => acc.1 ++ [s]
      | none =>
        if check_alternative then
          match summarize alternate_path with
          | some s => acc.1 ++ [s]
          | none => acc.1
        else acc.1
    let alternative_dirty :=
      if check_alternative then acc.2 ++ [alternate_path] else acc.2
    (summaries, alternative_dirty)) ([], [])
  let summaries := last.foldl (fun summaries old =>
    if !(dirty.contains old.path) && !(step1.2.contains old.path) then
      if exists_ old.path then summaries ++ [old]
      else
        -- rename-to-disabled detection, to avoid UI flicker
        let alternate_path :=
          if old.enabled then old.path ++ ".disabled"
          else setExtensionEmpty old.path
        if exists_ alternate_path then
          let enabled := !old.enabled
          let filename := String.mk (fileNamePart alternate_path)
          if filename = "" then summaries
          else
            let filename_without_disabled :=
              if !enabled then
                String.mk (filename.data.take (filename.data.length - 9))
              else filename
            summaries ++ [{ old with
              id := InstanceContentID.dangling,
              filename := filename,
              filename_hash := hashFn filename_without_disabled,
              path := alternate_path,
              enabled := enabled }]
        else summaries
    else summaries) step1.1
  sortByCmp cmpContentDirty summaries

/-! ## Content generations (`instance.rs`, `load_content` commit and
`try_get_content`)

Only the fields the two functions touch are modelled: the per-folder
`generation` and published `summaries`, and the instance-wide
`content_generation`.  The commit of every `load_content` call is the
only operation that changes them (dirty marking and load planning do
not), so reachable states are folds of commit steps from the freshly
loaded instance state. -/

inductive ContentFolder where
  | Mods | ResourcePacks
deriving DecidableEq, Repr

structure ContentFolderStateM where
  generation : Nat
  summaries : Option (List InstanceContentSummary)

structure InstanceContentState where
  content_generation : Nat
  folders : ContentFolder → ContentFolderStateM

/-- `Instance::load_from_folder`: `content_generation: 0`, each folder
state `generation: 0, summaries: None`. -/
def initialContentState : InstanceContentState :=
  ⟨0, fun _ => ⟨0, none⟩⟩

/-- The id stamping of the commit: entry `index` gets
`InstanceContentID { index, generation }`. -/
def stampIDs (g : Nat) (result : List InstanceContentSummary) :
    List InstanceContentSummary :=
  result.enum.map (fun is => { is.2 with id := ⟨is.1, g⟩ })

/-- The commit section of `Instance::load_content`:
`content_generation = content_generation.wrapping_add(1)` (usize), the
folder's generation is set to it, every entry of the new snapshot is
stamped, and the snapshot is published. -/
def commitLoad (st : InstanceContentState) (folder : ContentFolder)
    (result : List InstanceContentSummary) : InstanceContentState :=
  ⟨(st.content_generation + 1) % 2 ^ 64,
   fun f => if f = folder then
      ⟨(st.content_generation + 1) % 2 ^ 64,
       some (stampIDs ((st.content_generation + 1) % 2 ^ 64) result)⟩
    else st.folders f⟩

/-- `Instance::try_get_content`, iterating the `EnumMap` in declaration
order; inside the matching folder the `?`s return `None` from the whole
function. -/
def tryGetAux (st : InstanceContentState) (id : InstanceContentID) :
    List ContentFolder → Option (InstanceContentSummary × ContentFolder)
  | [] => none
  | f :: rest =>
    if (st.folders f).generation = id.generation then
      match (st.folders f).summaries with
      | none => none
      | some summaries =>
        match summaries.get? id.index with
        | none => none
        | some content => some (content, f)
    else tryGetAux st id rest

def try_get_content (st : InstanceContentState) (id : InstanceContentID) :
    Option (InstanceContentSummary × ContentFolder) :=
  tryGetAux st id [.Mods, .ResourcePacks]

/-- One `load_content` commit: which folder reloaded and the freshly
built snapshot (before stamping). -/
structure CommitStep where
  folder : ContentFolder
  result : List InstanceContentSummary

/-- Replay a sequence of commits from a starting state, collecting
every content ID handed out (with its owning folder). -/
def runTraceAux (st : InstanceContentState)
    (issued : List (ContentFolder × InstanceContentID)) :
    List CommitStep →
    InstanceContentState × List (ContentFolder × InstanceContentID)
  | [] => (st, issued)
  | step :: rest =>
    runTraceAux (commitLoad st step.folder step.result)
      (issued ++ (stampIDs ((st.content_generation + 1) % 2 ^ 64)
        step.result).map (fun s => (step.folder, s.id))) rest

def runTrace (trace : List CommitStep) :
    InstanceContentState × List (ContentFolder × InstanceContentID) :=
  runTraceAux initialContentState [] trace

/-! ## Content installer (`install_content.rs`)

`download_file_into_library_inner` is modelled over the filesystem map
with two oracles: the SHA-1 function (an arbitrary 20-byte digest
function) and the HTTP client (`url ↦ (status, body)`); the response
stream is its full body (transport errors mid-stream, the progress
tracker, the per-hash `.lock` companion file and the directory
creation are not modelled — none are observable in the claims).  The
returned `Option<Arc<ContentSummary>>` of the Rust function (a pure
cache read) is omitted. -/

inductive ContentInstallError where
  | UnableToFindDependencyVersion
  | UnableToDetermineContentType (filename : String)
  | InvalidFilename (filename : String)
  | Reqwest
  | NotOK (status : Nat)
  | WrongFilesize
  | WrongHash
  | InvalidHash (sha1 : String)
  | IoError
  | MetaLoadError
  | MismatchedProjectIdForVersion (version expected got : String)
deriving DecidableEq, Repr

/-- `hex::decode` of a full string into bytes (`none` on an odd length
or a non-hex character; both cases of letters accepted). -/
def hexDecodeChars : List Char → Option (List Nat)
  | [] => some []
  | c1 :: c2 :: rest =>
    match hexDigitVal c1, hexDigitVal c2 with
    | some h, some l => (hexDecodeChars rest).map ((h * 16 + l) :: ·)
    | _, _ => none
  | _ => none

/-- `hex::decode_to_slice(&sha1, &mut [0u8; 20])`: exactly 40 hex
characters. -/
def hexDecode20 (s : String) : Option (List Nat) :=
  if s.data.length = 40 then hexDecodeChars s.data else none

/-- `hex::encode` (lowercase). -/
def hexEncode (bytes : List Nat) : String :=
  String.mk ((bytes.map
    (fun b => [Nat.digitChar (b / 16 % 16), Nat.digitChar (b % 16)])).join)

/-- `content_library_dir / hex[0..2] / hex[0..40][.ext]` — the library
path of a hash (the 40-char hex name has no dot, so `set_extension`
appends). -/
def libraryPath (libDir : String) (expected : List Nat)
    (ext : Option String) : String :=
  libDir ++ "/" ++ String.mk ((hexEncode expected).data.take 2) ++ "/" ++
    hexEncode expected ++ (match ext with | some e => "." ++ e | none => "")

structure DownloadEnv where
  /-- SHA-1 digest of a byte sequence (kept abstract). -/
  sha1fn : List Nat → List Nat
  /-- The HTTP client: status code and body per URL. -/
  http : String → Nat × List Nat

/-- `crate::check_sha1_hash` at its two call sites, which both
`unwrap_or(false)` the IO result: an unreadable path counts as a
mismatch. -/
def check_sha1_hash (sha1fn : List Nat → List Nat) (fs : FS)
    (path : String) (expected : List Nat) : Bool :=
  match fs path with
  | none => false
  | some data => sha1fn data == expected

/-- `BackendState::download_file_into_library_inner`: parse the hash,
short-circuit when the library file already matches, otherwise fetch;
non-200 fails with `NotOK`; on a hash or size mismatch the partial
file is truncated (`set_len(0)`) and deleted before failing with
`WrongHash` / `WrongFilesize`. -/
def download_file_into_library_inner (env : DownloadEnv) (fs : FS)
    (libDir : String) (ext : Option String) (url sha1 : String)
    (size : Nat) : FS × Except ContentInstallError (String × List Nat) :=
  match hexDecode20 sha1 with
  | none => (fs, .error (.InvalidHash sha1))
  | some expected_hash =>
    if check_sha1_hash env.sha1fn fs (libraryPath libDir expected_hash ext)
        expected_hash then
      (fs, .ok (libraryPath libDir expected_hash ext, expected_hash))
    else if (env.http url).1 ≠ 200 then
      (fs, .error (.NotOK (env.http url).1))
    else
      -- `File::create` + streamed `write_all`s: the file ends up with
      -- the full body.
      if env.sha1fn (env.http url).2 ≠ expected_hash then
        (fsRemove
          (fsSet (fsSet fs (libraryPath libDir expected_hash ext)
            (env.http url).2) (libraryPath libDir expected_hash ext) [])
          (libraryPath libDir expected_hash ext), .error .WrongHash)
      else if (env.http url).2.length ≠ size then
        (fsRemove
          (fsSet (fsSet fs (libraryPath libDir expected_hash ext)
            (env.http url).2) (libraryPath libDir expected_hash ext) [])
          (libraryPath libDir expected_hash ext), .error .WrongFilesize)
      else
        (fsSet fs (libraryPath libDir expected_hash ext) (env.http url).2,
          .ok (libraryPath libDir expected_hash ext, expected_hash))

/-! ### `install_content` staging/commit structure

The per-file staging futures (`Modrinth`/`Url`/`File` branches) touch
only the content library; they are a parameter `stage` of the model
(the `Url` branch is `download_file_into_library_inner` above).
`futures::future::try_join_all` is modelled sequentially: the first
error wins and the files staged before it stay in the library. -/

structure InstallFromContentLibrary where
  from_ : String
  replace : Option String
  hash : Hash20
  install_path : String
  /-- `content_file.content_source`. -/
  content_source : ContentSource

inductive InstallTarget where
  | InstanceTarget
  | Library
  | NewInstance (name : String)

structure ContentInstallRequest where
  target : InstallTarget
  loader_hint : Loader
  version_hint : Option String

structure InstanceModel where
  loader : Loader
  dot_minecraft : String

structure InstallCtx where
  /-- `meta.fetch(&MinecraftVersionManifestMetadataItem)`'s
  `latest.release`, when the fetch succeeds. -/
  fetchLatestRelease : Option String
  usedNames : List String
  instancesDir : String

/-- The state `install_content` reads and writes: the content library,
the instance trees (`dest`, mapping a created hard link to its library
source), the source index, the target instance (for the
Vanilla-loader update) and the modal action's error channel. -/
structure InstallState where
  library : FS
  dest : String → Option String
  sources : ContentSources
  instanceTarget : Option InstanceModel
  errorMessage : Option ContentInstallError

def stageLoop {α : Type}
    (stage : α → FS → FS × Except ContentInstallError InstallFromContentLibrary) :
    List α → FS → FS × Except ContentInstallError (List InstallFromContentLibrary)
  | [], fs => (fs, .ok [])
  | f :: rest, fs =>
    match stage f fs with
    | (fs', .error e) => (fs', .error e)
    | (fs', .ok staged) =>
      match stageLoop stage rest fs' with
      | (fs'', .error e) => (fs'', .error e)
      | (fs'', .ok l) => (fs'', .ok (staged :: l))

/-- The commit phase of `install_content` (the `Ok(files)` arm):
resolve the destination root (updating a Vanilla loader to the hint,
or creating a new instance), update the source index for every
non-`Manual` file, then for each file ensure the destination parent
directory exists (directories are not part of the filesystem map),
remove `replace_old` and hard-link the library file into the
destination (a failing hard link — target already present — is
ignored, as the code discards the result). -/
def commitPhase (ctx : InstallCtx) (content : ContentInstallRequest)
    (files : List InstallFromContentLibrary) (st : InstallState) :
    InstallState :=
  let resolved : InstallState × Option String :=
    match content.target with
    | .InstanceTarget =>
      match st.instanceTarget with
      | some inst =>
        (if inst.loader = .Vanilla ∧ content.loader_hint ≠ .Unknown then
          { st with
            instanceTarget := some ({ inst with loader := content.loader_hint }) }
         else st, some inst.dot_minecraft)
      | none => (st, none)
    | .Library => (st, none)
    | .NewInstance name =>
      match (match content.version_hint with
             | some v => some v
             | none => ctx.fetchLatestRelease) with
      | none => (st, none)
      | some v =>
        match (create_instance_sanitized ⟨ctx.usedNames, ctx.instancesDir⟩
            name v content.loader_hint).result with
        | some dir => (st, some (dir ++ "/.minecraft"))
        | none => (st, none)
  let st1 := resolved.1
  let newSources := files.foldl (fun srcs install =>
    if install.content_source ≠ .Manual then
      (srcs.set install.hash install.content_source).1
    else srcs) st1.sources
  let st2 := { st1 with sources := newSources }
  match resolved.2 with
  | none => st2
  | some dir =>
    let newDest := files.foldl (fun dest install =>
      let target_path := dir ++ "/" ++ install.install_path
      let dest1 : String → Option String :=
        match install.replace with
        | some r => fun q => if q = r then none else dest q
        | none => dest
      match dest1 target_path with
      | some _ => dest1
      | none => fun q => if q = target_path then some install.from_
                         else dest1 q) st2.dest
    { st2 with dest := newDest }

/-- `BackendState::install_content`: stage every file, then either run
the commit phase (all staged) or only report the first error through
the modal action. -/
def install_content {α : Type} (ctx : InstallCtx)
    (content : ContentInstallRequest) (files : List α)
    (stage : α → FS → FS × Except ContentInstallError InstallFromContentLibrary)
    (st : InstallState) : InstallState :=
  match stageLoop stage files st.library with
  | (lib', .error e) =>
    { st with library := lib', errorMessage := some e }
  | (lib', .ok staged) =>
    commitPhase ctx content staged { st with library := lib' }

/-! ### Concrete fixtures used by witnesses and counterexamples -/

/-- A loaded mod entry with filename `a2.jar`. -/
def entryA2 : InstanceContentSummary :=
  ⟨⟨some "m"⟩, InstanceContentID.dangling, [], "a2.jar", 0,
    "mods/a2.jar", true, .Manual, []⟩

/-- A loaded mod entry with filename `a10.jar` (same mod id). -/
def entryA10 : InstanceContentSummary :=
  ⟨⟨some "m"⟩, InstanceContentID.dangling, [], "a10.jar", 0,
    "mods/a10.jar", true, .Manual, []⟩

/-- The all-zero 19-byte key suffix. -/
def key19 : KeySuffix := List.replicate 19 0

/-- The all-zero 20-byte hash. -/
def hash0 : Hash20 := ⟨0, key19⟩

/-- An index holding exactly one entry, for the all-zero hash, in shard 0. -/
def singletonSources (src : ContentSource) : ContentSources :=
  ⟨fun b => if b = 0 then [(key19, src)] else []⟩

/-! ## Theorems -/

/-! ### Helper lemmas about `searchByKey` and `setAt` -/

theorem searchByKey_keys_congr {v1 v2 : List (KeySuffix × ContentSource)}
    (key : KeySuffix) (h : v1.map Prod.fst = v2.map Prod.fst) :
    searchByKey v1 key = searchByKey v2 key := by
  induction v1 generalizing v2 with
  | nil => cases v2 with
    | nil => rfl
    | cons b bs => simp at h
  | cons a as ih =>
    cases v2 with
    | nil => simp at h
    | cons b bs =>
      simp only [List.map_cons, List.cons.injEq] at h
      obtain ⟨h1, h2⟩ := h
      simp only [searchByKey, h1, ih h2]

theorem setAt_map_fst (values : List (KeySuffix × ContentSource)) (i : Nat)
    (v : ContentSource) :
    (setAt values i v).map Prod.fst = values.map Prod.fst := by
  induction values generalizing i with
  | nil => rfl
  | cons a as ih =>
    cases i with
    | zero => simp [setAt]
    | succ n => simpa [setAt] using ih n

theorem setAt_get? (values : List (KeySuffix × ContentSource)) (i : Nat)
    (v : ContentSource) :
    (setAt values i v).get? i = (values.get? i).map (fun kv => (kv.1, v)) := by
  induction values generalizing i with
  | nil => simp [setAt]
  | cons a as ih =>
    cases i with
    | zero => simp [setAt]
    | succ n => simpa [setAt] using ih n

theorem updateShard_self (s : ContentSources) (b : Fin 256)
    (values : List (KeySuffix × ContentSource)) :
    (s.updateShard b values).by_first_byte b = values := by
  simp [ContentSources.updateShard]

/-- After `set` found the key at index `i` and replaced the source, a
`get` of the same hash sees the new source. -/
theorem get_after_replace (s : ContentSources) (hash : Hash20) (i : Nat)
    (value : ContentSource)
    (hsearch : searchByKey (s.by_first_byte hash.first) hash.rest = .inl i)
    (hmem : (s.by_first_byte hash.first).get? i ≠ none) :
    (s.updateShard hash.first
      (setAt (s.by_first_byte hash.first) i value)).get hash = some value := by
  unfold ContentSources.get
  rw [updateShard_self]
  rw [searchByKey_keys_congr hash.rest (setAt_map_fst _ i value), hsearch]
  dsimp only
  rw [setAt_get?]
  cases hv : (s.by_first_byte hash.first).get? i with
  | none => exact absurd hv hmem
  | some kv => simp

/-- The `get` of a hash dissected: a successful lookup means the search
found an index holding the returned source. -/
theorem get_eq_some_elim (s : ContentSources) (hash : Hash20)
    (v : ContentSource) (h : s.get hash = some v) :
    ∃ i k, searchByKey (s.by_first_byte hash.first) hash.rest = .inl i ∧
      (s.by_first_byte hash.first).get? i = some (k, v) := by
  unfold ContentSources.get at h
  cases hs : searchByKey (s.by_first_byte hash.first) hash.rest with
  | inl i =>
    rw [hs] at h
    dsimp only at h
    cases hv : (s.by_first_byte hash.first).get? i with
    | none => rw [hv] at h; simp at h
    | some kv =>
      rw [hv] at h
      simp only [Option.map_some'] at h
      have hv2 : kv.2 = v := by simpa using h
      exact ⟨i, kv.1, rfl, by rw [hv, ← hv2]⟩
  | inr i => rw [hs] at h; dsimp only at h; exact absurd h (by simp)

/-! ### C1 — precedence of `ContentSources::set` -/

/-- C1 (counterexample): the claim says `set(h, Manual)` never
overwrites an existing `ExternalProject` entry, but on the index that
maps the all-zero hash to `ModrinthProject "p"` (byte `[112]`),
`set(hash0, Manual)` reports a change and the entry afterwards reads
`Manual`. -/
theorem set_manual_overwrites_project_counterexample :
    (singletonSources (.ModrinthProject [112])).get hash0 =
        some (.ModrinthProject [112]) ∧
      ((singletonSources (.ModrinthProject [112])).set hash0 .Manual).2 = true ∧
      ((singletonSources (.ModrinthProject [112])).set hash0 .Manual).1.get hash0 =
        some .Manual := by
  refine ⟨by decide, by decide, by decide⟩

/-- C1 (amended): the precedence actually implemented by
`ContentSources::set`.  For every index and hash:
`set(h, Manual)` *does* overwrite an existing `ExternalProject` entry;
`set(h, ExternalUnknown)` never overwrites an `ExternalProject` entry;
`set(h, ExternalProject p2)` always overwrites an `ExternalUnknown`
entry, and overwrites an `ExternalProject p1` entry iff `p1 ≠ p2`. -/
theorem contentSources_set_precedence (s : ContentSources) (hash : Hash20) :
    (∀ p, s.get hash = some (.ModrinthProject p) →
      (s.set hash .Manual).2 = true ∧
      (s.set hash .Manual).1.get hash = some .Manual) ∧
    (∀ p, s.get hash = some (.ModrinthProject p) →
      (s.set hash .ModrinthUnknown).2 = false ∧
      (s.set hash .ModrinthUnknown).1 = s) ∧
    (∀ p2, s.get hash = some .ModrinthUnknown →
      (s.set hash (.ModrinthProject p2)).2 = true ∧
      (s.set hash (.ModrinthProject p2)).1.get hash =
        some (.ModrinthProject p2)) ∧
    (∀ p1 p2, s.get hash = some (.ModrinthProject p1) →
      (p1 = p2 →
        (s.set hash (.ModrinthProject p2)).2 = false ∧
        (s.set hash (.ModrinthProject p2)).1 = s) ∧
      (p1 ≠ p2 →
        (s.set hash (.ModrinthProject p2)).2 = true ∧
        (s.set hash (.ModrinthProject p2)).1.get hash =
          some (.ModrinthProject p2))) := by
  refine ⟨?_, ?_, ?_, ?_⟩
  · intro p hget
    obtain ⟨i, k, hsearch, hentry⟩ := get_eq_some_elim s hash _ hget
    unfold ContentSources.set
    rw [hsearch]
    dsimp only
    rw [hentry]
    simp only [Option.map_some']
    have hskip : skipSet (some (.ModrinthProject p)) .Manual = false := rfl
    simp only [hskip]
    rw [if_neg (by simp)]
    exact ⟨rfl, get_after_replace s hash i .Manual hsearch (by rw [hentry]; simp)⟩
  · intro p hget
    obtain ⟨i, k, hsearch, hentry⟩ := get_eq_some_elim s hash _ hget
    unfold ContentSources.set
    rw [hsearch]
    dsimp only
    rw [hentry]
    simp only [Option.map_some']
    have hskip : skipSet (some (.ModrinthProject p)) .ModrinthUnknown = true := by
      simp [skipSet]
    simp only [hskip, if_true]
    exact ⟨trivial, trivial⟩
  · intro p2 hget
    obtain ⟨i, k, hsearch, hentry⟩ := get_eq_some_elim s hash _ hget
    unfold ContentSources.set
    rw [hsearch]
    dsimp only
    rw [hentry]
    simp only [Option.map_some']
    have hskip : skipSet (some .ModrinthUnknown) (.ModrinthProject p2) = false := rfl
    simp only [hskip]
    rw [if_neg (by simp)]
    exact ⟨rfl, get_after_replace s hash i (.ModrinthProject p2) hsearch
      (by rw [hentry]; simp)⟩
  · intro p1 p2 hget
    obtain ⟨i, k, hsearch, hentry⟩ := get_eq_some_elim s hash _ hget
    constructor
    · intro heq
      subst heq
      unfold ContentSources.set
      rw [hsearch]
      dsimp only
      rw [hentry]
      simp only [Option.map_some']
      have hskip : skipSet (some (.ModrinthProject p1)) (.ModrinthProject p1) = true := by
        simp [skipSet]
      simp only [hskip, if_true]
      exact ⟨trivial, trivial⟩
    · intro hne
      unfold ContentSources.set
      rw [hsearch]
      dsimp only
      rw [hentry]
      simp only [Option.map_some']
      have hskip : skipSet (some (.ModrinthProject p1)) (.ModrinthProject p2) = false := by
        simp [skipSet, hne]
      simp only [hskip]
      rw [if_neg (by simp)]
      exact ⟨rfl, get_after_replace s hash i (.ModrinthProject p2) hsearch
        (by rw [hentry]; simp)⟩

/-- C1 (witness): the amended precedence evaluated on concrete
single-entry indexes. -/
theorem contentSources_set_precedence_witness :
    ((singletonSources (.ModrinthProject [112])).set hash0 .Manual).1.get hash0 =
        some .Manual ∧
      ((singletonSources (.ModrinthProject [112])).set hash0 .ModrinthUnknown).2 =
        false ∧
      ((singletonSources .ModrinthUnknown).set hash0
          (.ModrinthProject [112])).2 = true ∧
      ((singletonSources (.ModrinthProject [112])).set hash0
          (.ModrinthProject [113])).1.get hash0 =
        some (.ModrinthProject [113]) :=
  ⟨(contentSources_set_precedence (singletonSources (.ModrinthProject [112]))
      hash0).1 [112] (by decide) |>.2,
   ((contentSources_set_precedence (singletonSources (.ModrinthProject [112]))
      hash0).2.1 [112] (by decide)).1,
   ((contentSources_set_precedence (singletonSources .ModrinthUnknown)
      hash0).2.2.1 [112] (by decide)).1,
   (((contentSources_set_precedence (singletonSources (.ModrinthProject [112]))
      hash0).2.2.2 [112] [113] (by decide)).2 (by decide)).2⟩

/-! ### C7 — round trip of the source index -/

theorem compareBytes_lt_gt {a b : List Nat} (h : compareBytes a b = .lt) :
    compareBytes b a = .gt := by
  induction a generalizing b with
  | nil =>
    cases b with
    | nil => simp [compareBytes] at h
    | cons y ys => simp [compareBytes]
  | cons x xs ih =>
    cases b with
    | nil => simp [compareBytes] at h
    | cons y ys =>
      simp only [compareBytes] at h ⊢
      cases hc : compare x y with
      | lt =>
        have : compare y x = .gt := Nat.compare_eq_gt.mpr (Nat.compare_eq_lt.mp hc)
        simp [this, Ordering.then]
      | eq =>
        have hxy : x = y := Nat.compare_eq_eq.mp hc
        subst hxy
        rw [hc] at h
        simp only [Ordering.then] at h
        rw [hc]
        simpa [Ordering.then] using ih h
      | gt => rw [hc] at h; simp [Ordering.then] at h

theorem searchByKey_all_lt (values : List (KeySuffix × ContentSource))
    (key : KeySuffix)
    (h : ∀ x ∈ values, compareBytes x.1 key = .lt) :
    searchByKey values key = .inr values.length := by
  induction values with
  | nil => rfl
  | cons kv rest ih =>
    obtain ⟨k0, v0⟩ := kv
    have hgt : compareBytes key k0 = .gt :=
      compareBytes_lt_gt (h ⟨k0, v0⟩ (by simp))
    have hr := ih (fun x hx => h x (List.mem_cons_of_mem _ hx))
    simp [searchByKey, hgt, hr]

theorem insertRecord_append (values : List (KeySuffix × ContentSource))
    (key : KeySuffix) (s : ContentSource)
    (h : ∀ x ∈ values, compareBytes x.1 key = .lt) :
    insertRecord values key s = values ++ [(key, s)] := by
  unfold insertRecord
  rw [searchByKey_all_lt values key h]
  exact List.insertIdx_length_self values (key, s)

theorem parseShardLoop_nil (values : List (KeySuffix × ContentSource)) :
    parseShardLoop [] values = values := by
  rw [parseShardLoop]
  simp

/-- Parsing one serialized record consumes it and inserts it. -/
theorem parseShardLoop_record (key : KeySuffix) (s : ContentSource)
    (rec rest : List Nat) (values : List (KeySuffix × ContentSource))
    (hvalid : ValidEntry (key, s)) (hrec : writeRecord key s = some rec) :
    parseShardLoop (rec ++ rest) values =
      parseShardLoop rest (insertRecord values key s) := by
  cases s with
  | Manual =>
    have hkey : key.length = 19 := hvalid
    have hrec' : rec = key ++ [0, 0] := by
      simpa [writeRecord] using hrec.symm
    subst hrec'
    have hassoc : (key ++ [0, 0]) ++ rest = (key ++ [0, 0]) ++ rest := rfl
    have hlen : ((key ++ [0, 0]) ++ rest).length = 21 + rest.length := by
      simp [hkey]; omega
    have hlen21 : (key ++ [0, 0]).length = 21 := by simp [hkey]
    have ht : ((key ++ [0, 0]) ++ rest).getD 19 0 = 0 := by
      have : ((key ++ [0, 0]) ++ rest).getD 19 0 = (key ++ [0, 0]).getD 19 0 := by
        rw [List.getD, List.getD,
          List.get?_append (by simp [hkey])]
      rw [this, List.getD, ← hkey]
      rw [List.get?_append_right (le_refl _)]
      simp
    have hdrop : ((key ++ [0, 0]) ++ rest).drop 21 = rest := by
      rw [← hlen21]; exact List.drop_left _ _
    have htake : ((key ++ [0, 0]) ++ rest).take 19 = key := by
      rw [List.append_assoc, ← hkey]; exact List.take_left _ _
    rw [parseShardLoop, dif_neg (by omega), if_pos ht, hdrop, htake]
  | ModrinthUnknown =>
    have hkey : key.length = 19 := hvalid
    have hrec' : rec = key ++ [1, 0] := by
      simpa [writeRecord] using hrec.symm
    subst hrec'
    have hlen : ((key ++ [1, 0]) ++ rest).length = 21 + rest.length := by
      simp [hkey]; omega
    have hlen21 : (key ++ [1, 0]).length = 21 := by simp [hkey]
    have ht : ((key ++ [1, 0]) ++ rest).getD 19 0 = 1 := by
      have : ((key ++ [1, 0]) ++ rest).getD 19 0 = (key ++ [1, 0]).getD 19 0 := by
        rw [List.getD, List.getD,
          List.get?_append (by simp [hkey])]
      rw [this, List.getD, ← hkey]
      rw [List.get?_append_right (le_refl _)]
      simp
    have hdrop : ((key ++ [1, 0]) ++ rest).drop 21 = rest := by
      rw [← hlen21]; exact List.drop_left _ _
    have htake : ((key ++ [1, 0]) ++ rest).take 19 = key := by
      rw [List.append_assoc, ← hkey]; exact List.take_left _ _
    rw [parseShardLoop, dif_neg (by omega), if_neg (by rw [ht]; omega),
      if_pos ht, hdrop, htake]
  | ModrinthProject p =>
    obtain ⟨hkey, hutf, hplen⟩ := hvalid
    have hrec' : rec = (key ++ [2, p.length]) ++ p := by
      rw [writeRecord, if_neg (by omega)] at hrec
      exact (Option.some_inj.mp hrec).symm
    subst hrec'
    have hlen21 : (key ++ [2, p.length]).length = 21 := by simp [hkey]
    have hlen : (((key ++ [2, p.length]) ++ p) ++ rest).length =
        21 + p.length + rest.length := by
      simp [hkey]; omega
    have hassoc : ((key ++ [2, p.length]) ++ p) ++ rest =
        (key ++ [2, p.length]) ++ (p ++ rest) := by simp
    have ht : (((key ++ [2, p.length]) ++ p) ++ rest).getD 19 0 = 2 := by
      rw [hassoc]
      have : ((key ++ [2, p.length]) ++ (p ++ rest)).getD 19 0 =
          (key ++ [2, p.length]).getD 19 0 := by
        rw [List.getD, List.getD,
          List.get?_append (by simp [hkey])]
      rw [this, List.getD, ← hkey]
      rw [List.get?_append_right (le_refl _)]
      simp
    have hsz : (((key ++ [2, p.length]) ++ p) ++ rest).getD 20 0 = p.length := by
      rw [hassoc]
      have : ((key ++ [2, p.length]) ++ (p ++ rest)).getD 20 0 =
          (key ++ [2, p.length]).getD 20 0 := by
        rw [List.getD, List.getD,
          List.get?_append (by simp [hkey])]
      rw [this, List.getD]
      rw [List.get?_append_right (by simp [hkey])]
      simp [hkey]
    have hdrop21 : (((key ++ [2, p.length]) ++ p) ++ rest).drop 21 = p ++ rest := by
      rw [hassoc, ← hlen21]; exact List.drop_left _ _
    have htake : (((key ++ [2, p.length]) ++ p) ++ rest).take 19 = key := by
      rw [hassoc, List.append_assoc, ← hkey]; exact List.take_left _ _
    have htakep : (p ++ rest).take p.length = p := List.take_left p rest
    have hdropp : (p ++ rest).drop p.length = rest := List.drop_left p rest
    have hdropfull : (((key ++ [2, p.length]) ++ p) ++ rest).drop (21 + p.length) =
        rest := by
      rw [← List.drop_drop, hdrop21, hdropp]
    rw [parseShardLoop, dif_neg (by omega), if_neg (by rw [ht]; omega),
      if_neg (by rw [ht]; omega), if_pos ht, hsz, if_neg (by omega),
      hdrop21, htakep, if_pos hutf, hdropfull, htake]

theorem serializeShard_isSome (values : List (KeySuffix × ContentSource))
    (hvalid : ∀ e ∈ values, ValidEntry e) :
    ∃ bs, serializeShard values = some bs := by
  induction values with
  | nil => exact ⟨[], rfl⟩
  | cons kv rest ih =>
    obtain ⟨k, src⟩ := kv
    obtain ⟨rs, hrs⟩ := ih (fun e he => hvalid e (List.mem_cons_of_mem _ he))
    have hrecord : ∃ r, writeRecord k src = some r := by
      cases src with
      | Manual => exact ⟨_, rfl⟩
      | ModrinthUnknown => exact ⟨_, rfl⟩
      | ModrinthProject p =>
        have hv := hvalid (k, .ModrinthProject p) (by simp)
        obtain ⟨-, -, hlen⟩ := hv
        exact ⟨_, by rw [writeRecord, if_neg (by omega)]⟩
    obtain ⟨r, hr⟩ := hrecord
    exact ⟨r ++ rs, by simp [serializeShard, hr, hrs]⟩

/-- Parsing the serialization of a strictly sorted valid shard appends
exactly that shard to the accumulator. -/
theorem parseShardLoop_serializeShard
    (values : List (KeySuffix × ContentSource))
    (acc : List (KeySuffix × ContentSource)) (bs : List Nat)
    (hsorted : values.Pairwise fun x y => compareBytes x.1 y.1 = .lt)
    (hvalid : ∀ e ∈ values, ValidEntry e)
    (hacc : ∀ a ∈ acc, ∀ v ∈ values, compareBytes a.1 v.1 = .lt)
    (hser : serializeShard values = some bs) :
    parseShardLoop bs acc = acc ++ values := by
  induction values generalizing acc bs with
  | nil =>
    have : bs = [] := by simpa [serializeShard] using hser.symm
    subst this
    simp [parseShardLoop_nil]
  | cons kv rest ih =>
    obtain ⟨k, src⟩ := kv
    rw [serializeShard] at hser
    cases hr : writeRecord k src with
    | none => rw [hr] at hser; simp at hser
    | some r =>
      rw [hr] at hser
      cases hrs : serializeShard rest with
      | none => rw [hrs] at hser; simp at hser
      | some rs =>
        rw [hrs] at hser
        dsimp only at hser
        have hbs : bs = r ++ rs := (Option.some_inj.mp hser).symm
        subst hbs
        rw [parseShardLoop_record k src r rs acc
          (hvalid (k, src) (by simp)) hr]
        rw [insertRecord_append acc k src
          (fun a ha => hacc a ha (k, src) (by simp))]
        have hacc' : ∀ a ∈ acc ++ [(k, src)], ∀ v ∈ rest,
            compareBytes a.1 v.1 = .lt := by
          intro a ha v hv
          rcases List.mem_append.mp ha with h' | h'
          · exact hacc a h' v (List.mem_cons_of_mem _ hv)
          · have haeq : a = (k, src) := by simpa using h'
            subst haeq
            exact (List.pairwise_cons.mp hsorted).1 v hv
        have happly := ih (acc ++ [(k, src)]) rs
          (List.Pairwise.of_cons hsorted)
          (fun e he => hvalid e (List.mem_cons_of_mem _ he))
          hacc' hrs
        rw [happly]
        simp

theorem writeAllAux_isSome (s : ContentSources) (bs : List (Fin 256))
    (hvalid : ∀ b ∈ bs, ∀ e ∈ s.by_first_byte b, ValidEntry e) :
    ∃ dir, writeAllAux s bs = some dir := by
  induction bs with
  | nil => exact ⟨[], rfl⟩
  | cons b rest ih =>
    obtain ⟨dir', hdir'⟩ := ih (fun x hx => hvalid x (List.mem_cons_of_mem _ hx))
    by_cases hempty : (s.by_first_byte b).isEmpty
    · exact ⟨dir', by rw [writeAllAux, if_pos hempty]; exact hdir'⟩
    · obtain ⟨data, hdata⟩ :=
        serializeShard_isSome (s.by_first_byte b) (hvalid b (by simp))
      exact ⟨(hexEncodeByte b.val, data) :: dir', by
        rw [writeAllAux, if_neg hempty]
        simp [hdata, hdir']⟩

set_option maxRecDepth 4000 in
theorem decodeShardName_hexEncodeByte :
    ∀ b : Fin 256, decodeShardName (hexEncodeByte b.val) = some b := by
  decide

/-- Reading back the directory written for the shard list `bs` restores
exactly those shards. -/
theorem loadAllAux_writeAllAux (s : ContentSources) (bs : List (Fin 256))
    (hnodup : bs.Nodup)
    (acc : Fin 256 → List (KeySuffix × ContentSource))
    (dir : List (String × List Nat))
    (hvalid : ∀ b ∈ bs,
      (s.by_first_byte b).Pairwise (fun x y => compareBytes x.1 y.1 = .lt) ∧
      ∀ e ∈ s.by_first_byte b, ValidEntry e)
    (hacc : ∀ b ∈ bs, acc b = [])
    (hdir : writeAllAux s bs = some dir) :
    loadAllAux dir acc = fun x => if x ∈ bs then s.by_first_byte x else acc x := by
  induction bs generalizing acc dir with
  | nil =>
    have : dir = [] := by simpa [writeAllAux] using hdir.symm
    subst this
    funext x
    simp [loadAllAux]
  | cons b rest ih =>
    have hbnotin : b ∉ rest := (List.nodup_cons.mp hnodup).1
    have hnodup' : rest.Nodup := (List.nodup_cons.mp hnodup).2
    rw [writeAllAux] at hdir
    by_cases hempty : (s.by_first_byte b).isEmpty
    · rw [if_pos hempty] at hdir
      have h := ih hnodup' acc dir
        (fun x hx => hvalid x (List.mem_cons_of_mem _ hx))
        (fun x hx => hacc x (List.mem_cons_of_mem _ hx)) hdir
      rw [h]
      funext x
      by_cases hxr : x ∈ rest
      · simp [hxr]
      · by_cases hxb : x = b
        · subst hxb
          have h1 : s.by_first_byte x = [] := List.isEmpty_iff.mp hempty
          have h2 : acc x = [] := hacc x (by simp)
          simp [hxr, h1, h2]
        · simp [hxr, hxb]
    · rw [if_neg hempty] at hdir
      cases hdata : serializeShard (s.by_first_byte b) with
      | none => rw [hdata] at hdir; simp at hdir
      | some data =>
        rw [hdata] at hdir
        cases hrest : writeAllAux s rest with
        | none => rw [hrest] at hdir; simp at hdir
        | some dir' =>
          rw [hrest] at hdir
          dsimp only at hdir
          have hd : dir = (hexEncodeByte b.val, data) :: dir' :=
            (Option.some_inj.mp hdir).symm
          subst hd
          rw [loadAllAux, decodeShardName_hexEncodeByte b]
          dsimp only
          have hparse : parseShardLoop data (acc b) = s.by_first_byte b := by
            rw [hacc b (by simp)]
            have := parseShardLoop_serializeShard (s.by_first_byte b) [] data
              (hvalid b (by simp)).1 (hvalid b (by simp)).2
              (by intro a ha; simp at ha) hdata
            simpa using this
          rw [hparse]
          have h := ih hnodup'
            (fun x => if x = b then s.by_first_byte b else acc x) dir'
            (fun x hx => hvalid x (List.mem_cons_of_mem _ hx))
            (fun x hx => by
              have hxb : x ≠ b := fun hh => hbnotin (hh ▸ hx)
              simp only [if_neg hxb]
              exact hacc x (List.mem_cons_of_mem _ hx)) hrest
          rw [h]
          funext x
          by_cases hxr : x ∈ rest
          · simp [hxr]
          · by_cases hxb : x = b
            · subst hxb
              simp [hxr]
            · simp [hxr, hxb]

/-- C7: round trip of the source index.  For every valid in-memory
index (shards strictly sorted by the 19-byte key suffix, project ids
valid UTF-8 of at most 127 bytes), `write_all_to_file` succeeds and
`load_all` of the written directory restores an index equal to the
original. -/
theorem contentSources_roundtrip (S : ContentSources)
    (hvalid : ValidSources S) :
    ∃ dir, S.write_all_to_file = some dir ∧
      ContentSources.load_all dir = S := by
  obtain ⟨dir, hdir⟩ := writeAllAux_isSome S (List.finRange 256)
    (fun b _ => (hvalid b).2)
  refine ⟨dir, hdir, ?_⟩
  have h := loadAllAux_writeAllAux S (List.finRange 256)
    (List.nodup_finRange 256) (fun _ => []) dir
    (fun b _ => hvalid b) (fun _ _ => rfl) hdir
  unfold ContentSources.load_all
  have h2 : loadAllAux dir (fun _ => []) = S.by_first_byte := by
    rw [h]
    funext x
    simp [List.mem_finRange]
  rw [h2]

set_option maxRecDepth 4000 in
/-- C7 (witness): the round trip evaluated on the concrete one-entry
index. -/
theorem contentSources_roundtrip_witness :
    ∃ dir, (singletonSources (.ModrinthProject [112])).write_all_to_file =
        some dir ∧
      ContentSources.load_all dir = singletonSources (.ModrinthProject [112]) :=
  contentSources_roundtrip (singletonSources (.ModrinthProject [112]))
    (by decide)

/-! ### C4 — `Persistent::modify` and the dirty flag -/

/-- C4 (counterexample): the claim says a failed write sets the dirty
flag so that the next `get()` re-reads from disk.  On a clean document
holding `0`, with the disk file parsing as `7`, a `modify (+1)` whose
write fails leaves `dirty = false`, and the next `get()` returns the
in-memory `1` without re-reading the `7` from disk. -/
theorem persistent_modify_counterexample :
    (Persistent.modify ⟨some 7, true, false⟩
        ⟨"cfg", false, (0 : Nat)⟩ Nat.succ).dirty = false ∧
    (Persistent.get ⟨some 7, true, false⟩
        (Persistent.modify ⟨some 7, true, false⟩
          ⟨"cfg", false, (0 : Nat)⟩ Nat.succ)).2 = 1 := by
  exact ⟨rfl, rfl⟩

/-- C4 (amended): after `modify`, the in-memory value always reflects
the mutation (applied to the value re-read from disk when the document
was dirty); the dirty flag ends up set exactly when both serialization
and the atomic write succeed — a write failure leaves it clear, so the
next `get()` does *not* re-read from disk. -/
theorem persistent_modify_spec {T : Type} (env : PersistentEnv T)
    (p : Persistent T) (func : T → T) :
    (Persistent.modify env p func).data =
      func ((if p.dirty then p.load_from_disk env else p).data) ∧
    (Persistent.modify env p func).dirty = (env.serializeOk && env.writeOk) := by
  unfold Persistent.modify
  have hdirty : (if p.dirty then p.load_from_disk env else p).dirty = false := by
    cases hp : p.dirty with
    | false => simp [hp]
    | true =>
      simp only [hp, if_true]
      unfold Persistent.load_from_disk
      cases env.readJson <;> rfl
  cases hs : env.serializeOk <;> cases hw : env.writeOk <;>
    simp [hs, hw, hdirty]

/-! ### C8 — `write_safe` -/

/-- C8 (counterexample): the claim says a failing rename leads to a
cleanup attempt that removes the temporary `<path>.new` file.  With
every step succeeding except the rename, `write_safe` returns the
rename error and the temp file `a/b.json.new` is still present, with
the full contents: no cleanup happens. -/
theorem write_safe_counterexample :
    (write_safe ⟨true, true, true, true, false⟩ (fun _ => none)
        "a/b.json" [1]).error = some .rename ∧
    (write_safe ⟨true, true, true, true, false⟩ (fun _ => none)
        "a/b.json" [1]).fs "a/b.json.new" = some [1] := by
  exact ⟨rfl, by decide⟩

/-- C8 (amended): `write_safe` records the `create_dir_all` attempt on
the parent, writes the bytes to `<path>.new`, flushes, fsyncs and
renames it over the target; when every step succeeds the target holds
the bytes and the temp file is gone; when the rename fails the error
is propagated and the temporary `<path>.new` file is left in place —
no cleanup is attempted. -/
theorem write_safe_spec (env : WriteSafeEnv) (fs : FS) (path : String)
    (content : List Nat) :
    (write_safe env fs path content).createdParentOf = parentDir path ∧
    (env.createOk = true → env.writeOk = true → env.flushOk = true →
      env.syncOk = true →
      (env.renameOk = true →
        (write_safe env fs path content).error = none ∧
        (write_safe env fs path content).fs path = some content ∧
        (write_safe env fs path content).fs (path ++ ".new") = none ∧
        ∀ q, q ≠ path → q ≠ path ++ ".new" →
          (write_safe env fs path content).fs q = fs q) ∧
      (env.renameOk = false →
        (write_safe env fs path content).error = some .rename ∧
        (write_safe env fs path content).fs (path ++ ".new") = some content ∧
        ∀ q, q ≠ path ++ ".new" →
          (write_safe env fs path content).fs q = fs q)) := by
  have htemp : path ++ ".new" ≠ path := by
    intro h
    have hlen := congrArg String.length h
    rw [String.length_append] at hlen
    have h4 : String.length ".new" = 4 := rfl
    omega
  obtain ⟨c, w, f, y, r⟩ := env
  refine ⟨?_, ?_⟩
  · unfold write_safe
    cases c <;> cases w <;> cases f <;> cases y <;> cases r <;> rfl
  · intro hc hw hf hy
    simp only at hc hw hf hy
    subst hc; subst hw; subst hf; subst hy
    constructor
    · intro hr
      simp only at hr
      subst hr
      refine ⟨rfl, ?_, ?_, ?_⟩
      · simp [write_safe, fsSet]
      · simp [write_safe, fsSet, fsRemove, htemp]
      · intro q hq1 hq2
        simp [write_safe, fsSet, fsRemove, hq1, hq2]
    · intro hr
      simp only at hr
      subst hr
      refine ⟨rfl, ?_, ?_⟩
      · simp [write_safe, fsSet]
      · intro q hq
        simp [write_safe, fsSet, hq]

/-- C8 (witness): the amended `write_safe` behaviour evaluated on a
concrete path, for a succeeding run and a failing rename. -/
theorem write_safe_spec_witness :
    (write_safe ⟨true, true, true, true, true⟩ (fun _ => none)
        "a/b.json" [1]).error = none ∧
    (write_safe ⟨true, true, true, true, true⟩ (fun _ => none)
        "a/b.json" [1]).fs "a/b.json" = some [1] ∧
    (write_safe ⟨true, true, true, true, false⟩ (fun _ => none)
        "a/b.json" [1]).fs "a/b.json" = none :=
  ⟨(((write_safe_spec ⟨true, true, true, true, true⟩ (fun _ => none)
      "a/b.json" [1]).2 rfl rfl rfl rfl).1 rfl).1,
   (((write_safe_spec ⟨true, true, true, true, true⟩ (fun _ => none)
      "a/b.json" [1]).2 rfl rfl rfl rfl).1 rfl).2.1,
   by
    have h := (((write_safe_spec ⟨true, true, true, true, false⟩ (fun _ => none)
      "a/b.json" [1]).2 rfl rfl rfl rfl).2 rfl).2.2 "a/b.json" (by decide)
    exact h⟩

/-! ### C9 — `create_instance` name validation -/

/-- C9 (counterexample): the claim says `create_instance(n)` succeeds
for any loader argument iff the three name conditions hold.  The name
`"x"` is a single-component path, passes the Windows sanitizer check
and is not in use, yet `create_instance` with `Loader::Unknown` fails
(the unknown-loader guard fires first). -/
theorem create_instance_unknown_loader_counterexample :
    is_single_component_path "x" = true ∧
    isSanitizedWindows "x" = true ∧
    (([] : List String).contains "x") = false ∧
    (create_instance ⟨[], "instances"⟩ "x" "1.21.1" .Unknown).result = none := by
  refine ⟨by decide, by decide, by decide, by decide⟩

/-- Shared success shape of `create_instance` when all four guards
pass. -/
theorem create_instance_success (env : CreateEnv) (name version : String)
    (loader : Loader) (h1 : loader ≠ .Unknown)
    (h2 : is_single_component_path name = true)
    (h3 : isSanitizedWindows name = true)
    (h4 : env.usedNames.contains name = false) :
    create_instance env name version loader =
      ⟨some (env.instancesDir ++ "/" ++ name), [],
       some (env.instancesDir ++ "/" ++ name),
       some (env.instancesDir ++ "/" ++ name ++ "/info_v1.json")⟩ := by
  unfold create_instance
  rw [if_neg h1, if_neg (by rw [h2]; simp), if_neg (by rw [h3]; simp),
    if_neg (by rw [h4]; simp)]

/-- C9 (amended): `create_instance(n)` succeeds iff the loader is not
`Unknown` AND `n` is a single-component path AND `n` passes the
Windows-rules sanitizer check AND no loaded instance uses `n`; on
success it returns the instance directory after recording the
directory creation and the `info_v1.json` write. -/
theorem create_instance_spec (env : CreateEnv) (name version : String)
    (loader : Loader) :
    ((create_instance env name version loader).result.isSome = true ↔
      (loader ≠ .Unknown ∧ is_single_component_path name = true ∧
       isSanitizedWindows name = true ∧
       env.usedNames.contains name = false)) ∧
    (loader ≠ .Unknown → is_single_component_path name = true →
      isSanitizedWindows name = true → env.usedNames.contains name = false →
      create_instance env name version loader =
        ⟨some (env.instancesDir ++ "/" ++ name), [],
         some (env.instancesDir ++ "/" ++ name),
         some (env.instancesDir ++ "/" ++ name ++ "/info_v1.json")⟩) := by
  constructor
  · unfold create_instance
    split_ifs with h1 h2 h3 h4 <;> simp_all
  · intro h1 h2 h3 h4
    exact create_instance_success env name version loader h1 h2 h3 h4

/-- C9 (witness): the amended rule evaluated for a fresh valid name
with a known loader and for the success shape. -/
theorem create_instance_spec_witness :
    (create_instance ⟨["taken"], "instances"⟩ "x" "1.21.1" .Fabric).result.isSome
      = true ∧
    create_instance ⟨["taken"], "instances"⟩ "x" "1.21.1" .Fabric =
      ⟨some "instances/x", [], some "instances/x",
       some "instances/x/info_v1.json"⟩ :=
  ⟨((create_instance_spec ⟨["taken"], "instances"⟩ "x" "1.21.1" .Fabric).1).mpr
    ⟨by decide, by decide, by decide, by decide⟩,
   (create_instance_spec ⟨["taken"], "instances"⟩ "x" "1.21.1" .Fabric).2
    (by decide) (by decide) (by decide) (by decide)⟩

/-! ### C10 — `create_instance_sanitized` collision suffixes -/

theorem firstFreeSuffix_not_used (used : List String) (name : String)
    (is : List Nat) (cand : String)
    (h : firstFreeSuffix used name is = some cand) :
    used.contains cand = false := by
  induction is with
  | nil => simp [firstFreeSuffix] at h
  | cons i rest ih =>
    rw [firstFreeSuffix] at h
    by_cases hc : used.contains (name ++ " (" ++ toString i ++ ")")
    · rw [if_pos hc] at h
      exact ih h
    · rw [if_neg hc] at h
      have : name ++ " (" ++ toString i ++ ")" = cand := Option.some_inj.mp h
      subst this
      simpa using hc

/-- C10 (counterexample): the claim says that when the sanitized name
is taken, `create_instance_sanitized` does not fail and creates the
instance under the first free suffixed name.  With `"x"` taken and
`"x (1)"` free but `Loader::Unknown`, the call still fails. -/
theorem create_instance_sanitized_counterexample :
    sanitizeWindows "x" = "x" ∧
    (["x"].contains "x") = true ∧
    (["x"].contains "x (1)") = false ∧
    (create_instance_sanitized ⟨["x"], "instances"⟩ "x" "1.21.1"
      .Unknown).result = none := by
  refine ⟨by decide, by decide, by decide, by decide⟩

/-- C10 (amended): `create_instance_sanitized` first sanitizes the
requested name with the Windows filename rules; when the sanitized
name is already used it tries `"<name> (1)"` … `"<name> (31)"` in
order and passes the first suffixed name not in use on to
`create_instance`, which creates the instance under that name provided
the usual creation checks pass (a known loader and a valid, unused
name); with a taken name the install silently lands in the renamed
instance directory. -/
theorem create_instance_sanitized_spec (env : CreateEnv)
    (name version : String) (loader : Loader) (cand : String)
    (htaken : env.usedNames.contains (sanitizeWindows name) = true)
    (hfree : firstFreeSuffix env.usedNames (sanitizeWindows name)
      (List.range' 1 31) = some cand)
    (hloader : loader ≠ .Unknown)
    (hsingle : is_single_component_path cand = true)
    (hsan : isSanitizedWindows cand = true) :
    create_instance_sanitized env name version loader =
      ⟨some (env.instancesDir ++ "/" ++ cand), [],
       some (env.instancesDir ++ "/" ++ cand),
       some (env.instancesDir ++ "/" ++ cand ++ "/info_v1.json")⟩ := by
  have hnotused : env.usedNames.contains cand = false :=
    firstFreeSuffix_not_used _ _ _ _ hfree
  unfold create_instance_sanitized chooseSanitizedName
  rw [if_pos htaken, hfree]
  exact create_instance_success env cand version loader
    hloader hsingle hsan hnotused

/-- C10 (witness): with `"x"` taken, installing as `"x"` with the
Fabric loader creates `"x (1)"`. -/
theorem create_instance_sanitized_spec_witness :
    create_instance_sanitized ⟨["x"], "instances"⟩ "x" "1.21.1" .Fabric =
      ⟨some "instances/x (1)", [], some "instances/x (1)",
       some "instances/x (1)/info_v1.json"⟩ :=
  create_instance_sanitized_spec ⟨["x"], "instances"⟩ "x" "1.21.1" .Fabric
    "x (1)" (by decide) (by decide) (by decide) (by decide) (by decide)

/-! ### C5 — sorting of content snapshots -/

theorem compareNat_swap (a b : Nat) : (compare a b).swap = compare b a := by
  rcases Nat.lt_trichotomy a b with h | h | h
  · rw [Nat.compare_eq_lt.mpr h, Nat.compare_eq_gt.mpr h]; rfl
  · subst h
    rw [Nat.compare_eq_eq.mpr rfl]; rfl
  · rw [Nat.compare_eq_gt.mpr h, Nat.compare_eq_lt.mpr h]; rfl

theorem ordering_then_swap (x y : Ordering) :
    (x.then y).swap = x.swap.then y.swap := by
  cases x <;> rfl

theorem compareBytes_swap (a b : List Nat) :
    (compareBytes a b).swap = compareBytes b a := by
  induction a generalizing b with
  | nil => cases b <;> rfl
  | cons x xs ih =>
    cases b with
    | nil => rfl
    | cons y ys =>
      simp only [compareBytes, ordering_then_swap, compareNat_swap, ih]

theorem compareStrings_swap (a b : String) :
    (compareStrings a b).swap = compareStrings b a := by
  simp [compareStrings, compareBytes_swap]

theorem compareOptionId_swap (a b : Option String) :
    (compareOptionId a b).swap = compareOptionId b a := by
  cases a <;> cases b <;> simp [compareOptionId, compareStrings_swap] <;> rfl

theorem compareLexToken_swap (t1 t2 : LexToken) :
    (compareLexToken t1 t2).swap = compareLexToken t2 t1 := by
  cases t1 <;> cases t2 <;> simp [compareLexToken, compareNat_swap]

theorem compareLexTokens_swap (l1 l2 : List LexToken) :
    (compareLexTokens l1 l2).swap = compareLexTokens l2 l1 := by
  induction l1 generalizing l2 with
  | nil => cases l2 <;> rfl
  | cons t r ih =>
    cases l2 with
    | nil => rfl
    | cons t2 r2 =>
      simp only [compareLexTokens, ordering_then_swap, compareLexToken_swap, ih]

theorem naturalLexicalCmp_swap (a b : String) :
    (naturalLexicalCmp a b).swap = naturalLexicalCmp b a := by
  simp [naturalLexicalCmp, compareLexTokens_swap]

theorem cmpContentAll_swap (a b : InstanceContentSummary) :
    (cmpContentAll a b).swap = cmpContentAll b a := by
  unfold cmpContentAll
  rw [ordering_then_swap, compareOptionId_swap]
  congr 1
  rw [Ordering.swap_swap, naturalLexicalCmp_swap]

theorem cmpContentDirty_swap (a b : InstanceContentSummary) :
    (cmpContentDirty a b).swap = cmpContentDirty b a := by
  unfold cmpContentDirty
  rw [ordering_then_swap, compareOptionId_swap]
  congr 1
  rw [Ordering.swap_swap, compareStrings_swap]

/-- A not-`lt` comparison flips to a not-`gt` one under a
swap-compatible comparator. -/
theorem not_lt_to_le {α : Type} (cmp : α → α → Ordering)
    (hswap : ∀ a b, (cmp a b).swap = cmp b a) {x y : α}
    (h : ¬ cmp x y = .lt) : cmp y x ≠ .gt := by
  intro hc
  rw [← hswap x y] at hc
  cases hxy : cmp x y <;> rw [hxy] at hc <;> simp [Ordering.swap] at hc
  exact h hxy

theorem chain'_insertCmp {α : Type} (cmp : α → α → Ordering)
    (hswap : ∀ a b, (cmp a b).swap = cmp b a) (x : α)
    (l : List α) (hl : l.Chain' (fun a b => cmp a b ≠ .gt)) :
    (insertCmp cmp x l).Chain' (fun a b => cmp a b ≠ .gt) := by
  induction l with
  | nil => simp [insertCmp]
  | cons y ys ih =>
    by_cases hxy : cmp x y = .lt
    · rw [insertCmp, if_pos hxy]
      exact List.chain'_cons.mpr ⟨by simp [hxy], hl⟩
    · rw [insertCmp, if_neg hxy]
      have htail : ys.Chain' (fun a b => cmp a b ≠ .gt) :=
        (List.chain'_cons'.mp hl).2
      refine List.chain'_cons'.mpr ⟨?_, ih htail⟩
      intro z hz
      cases ys with
      | nil =>
        simp [insertCmp] at hz
        subst hz
        exact not_lt_to_le cmp hswap hxy
      | cons w ws =>
        rw [insertCmp] at hz
        by_cases hxw : cmp x w = .lt
        · rw [if_pos hxw] at hz
          simp at hz
          subst hz
          exact not_lt_to_le cmp hswap hxy
        · rw [if_neg hxw] at hz
          simp at hz
          subst hz
          exact (List.chain'_cons'.mp hl).1 w rfl

theorem chain'_foldl_insertCmp {α : Type} (cmp : α → α → Ordering)
    (hswap : ∀ a b, (cmp a b).swap = cmp b a) (l : List α) :
    ∀ acc, acc.Chain' (fun a b => cmp a b ≠ .gt) →
      (l.foldl (fun acc x => insertCmp cmp x acc) acc).Chain'
        (fun a b => cmp a b ≠ .gt) := by
  induction l with
  | nil => intro acc hacc; simpa using hacc
  | cons x xs ih =>
    intro acc hacc
    exact ih (insertCmp cmp x acc) (chain'_insertCmp cmp hswap x acc hacc)

theorem chain'_sortByCmp {α : Type} (cmp : α → α → Ordering)
    (hswap : ∀ a b, (cmp a b).swap = cmp b a) (l : List α) :
    (sortByCmp cmp l).Chain' (fun a b => cmp a b ≠ .gt) :=
  chain'_foldl_insertCmp cmp hswap l [] (by simp)

/-- C5 (counterexample): the claim requires the partial dirty load to
publish snapshots sorted secondarily by *natural* lexical filename
order descending, but `load_content_dirty` sorts by plain string
order.  Two retained entries with the same mod id and filenames
`a2.jar`, `a10.jar` come out in plain-descending order
`[a2.jar, a10.jar]`, which violates the claimed natural-descending
order (`a10.jar` must come before `a2.jar` since 10 > 2). -/
theorem load_content_dirty_sort_counterexample :
    load_content_dirty ["mods/zz"] (fun _ => none)
        (fun p => p == "mods/a2.jar" || p == "mods/a10.jar") (fun _ => 0)
        [entryA2, entryA10] = [entryA2, entryA10] ∧
    ¬ (load_content_dirty ["mods/zz"] (fun _ => none)
        (fun p => p == "mods/a2.jar" || p == "mods/a10.jar") (fun _ => 0)
        [entryA2, entryA10]).Chain'
      (fun a b => cmpContentAll a b ≠ .gt) := by
  have heq : load_content_dirty ["mods/zz"] (fun _ => none)
      (fun p => p == "mods/a2.jar" || p == "mods/a10.jar") (fun _ => 0)
      [entryA2, entryA10] = [entryA2, entryA10] := by decide
  refine ⟨heq, ?_⟩
  rw [heq, List.chain'_pair]
  intro h
  exact h (by decide)

/-- C5 (amended): every snapshot published by the full loader
`load_content_all` is sorted primarily by `ContentSummary` identity
ordering and secondarily by natural lexical filename order descending;
every snapshot published by the partial dirty loader
`load_content_dirty` is sorted primarily by the same identity ordering
but secondarily by *plain* lexicographic filename order descending. -/
theorem load_content_sorted :
    (∀ (entries : List String)
       (summarize : String → Option InstanceContentSummary),
      (load_content_all entries summarize).Chain'
        (fun a b => cmpContentAll a b ≠ .gt)) ∧
    (∀ (dirty : List String)
       (summarize : String → Option InstanceContentSummary)
       (exists_ : String → Bool) (hashFn : String → Nat)
       (last : List InstanceContentSummary),
      (load_content_dirty dirty summarize exists_ hashFn last).Chain'
        (fun a b => cmpContentDirty a b ≠ .gt)) := by
  constructor
  · intro entries summarize
    exact chain'_sortByCmp cmpContentAll cmpContentAll_swap _
  · intro dirty summarize exists_ hashFn last
    exact chain'_sortByCmp cmpContentDirty cmpContentDirty_swap _

/-! ### C6 — generational content IDs reject staleness -/

/-- Invariant carried along a replayed commit trace: the shared counter
equals the number of commits so far (no wraparound below `2^64`
commits), every folder generation is bounded by it, and every issued
ID's generation is at most its own folder's current generation while
differing from every other folder's current generation. -/
def TraceInv (st : InstanceContentState)
    (issued : List (ContentFolder × InstanceContentID)) (n : Nat) : Prop :=
  st.content_generation = n ∧ n < 2 ^ 64 ∧
  (∀ f, (st.folders f).generation ≤ n) ∧
  (∀ f id, (f, id) ∈ issued →
    id.generation ≤ (st.folders f).generation ∧
    ∀ f', f' ≠ f → (st.folders f').generation ≠ id.generation)

theorem mem_stamp_map (g : Nat) (res : List InstanceContentSummary)
    (f : ContentFolder) (x : ContentFolder × InstanceContentID)
    (hx : x ∈ (stampIDs g res).map (fun s => (f, s.id))) :
    x.1 = f ∧ x.2.generation = g := by
  simp only [stampIDs, List.map_map, List.mem_map] at hx
  obtain ⟨is, _, hx⟩ := hx
  subst hx
  exact ⟨rfl, rfl⟩

theorem commitLoad_cg (st : InstanceContentState) (folder : ContentFolder)
    (result : List InstanceContentSummary) :
    (commitLoad st folder result).content_generation =
      (st.content_generation + 1) % 2 ^ 64 := rfl

theorem commitLoad_gen_self (st : InstanceContentState)
    (folder : ContentFolder) (result : List InstanceContentSummary) :
    ((commitLoad st folder result).folders folder).generation =
      (st.content_generation + 1) % 2 ^ 64 := by
  show (if folder = folder then _ else _ : ContentFolderStateM).generation = _
  rw [if_pos rfl]

theorem commitLoad_summaries_self (st : InstanceContentState)
    (folder : ContentFolder) (result : List InstanceContentSummary) :
    ((commitLoad st folder result).folders folder).summaries =
      some (stampIDs ((st.content_generation + 1) % 2 ^ 64) result) := by
  show (if folder = folder then _ else _ : ContentFolderStateM).summaries = _
  rw [if_pos rfl]

theorem commitLoad_folders_other (st : InstanceContentState)
    (folder : ContentFolder) (result : List InstanceContentSummary)
    (f : ContentFolder) (h : f ≠ folder) :
    (commitLoad st folder result).folders f = st.folders f := by
  show (if f = folder then _ else _ : ContentFolderStateM) = _
  rw [if_neg h]

theorem runTraceAux_inv (trace : List CommitStep) :
    ∀ st issued n, TraceInv st issued n → n + trace.length < 2 ^ 64 →
      TraceInv (runTraceAux st issued trace).1
        (runTraceAux st issued trace).2 (n + trace.length) := by
  induction trace with
  | nil =>
    intro st issued n h _
    simpa [runTraceAux] using h
  | cons step rest ih =>
    intro st issued n hinv hb
    obtain ⟨hgen, hn, hfb, hiss⟩ := hinv
    have hlen : (step :: rest).length = rest.length + 1 := rfl
    have hg : (st.content_generation + 1) % 2 ^ 64 = n + 1 := by
      rw [hgen]
      apply Nat.mod_eq_of_lt
      rw [hlen] at hb
      omega
    rw [runTraceAux]
    have hinv' : TraceInv (commitLoad st step.folder step.result)
        (issued ++ (stampIDs ((st.content_generation + 1) % 2 ^ 64)
          step.result).map (fun s => (step.folder, s.id))) (n + 1) := by
      refine ⟨?_, ?_, ?_, ?_⟩
      · rw [commitLoad_cg, hg]
      · rw [hlen] at hb; omega
      · intro f
        by_cases hf : f = step.folder
        · subst hf
          rw [commitLoad_gen_self, hg]
        · rw [commitLoad_folders_other st step.folder step.result f hf]
          exact le_trans (hfb f) (Nat.le_succ n)
      · intro f id hmem
        rcases List.mem_append.mp hmem with hold | hnew
        · obtain ⟨hle, hne⟩ := hiss f id hold
          constructor
          · by_cases hf : f = step.folder
            · subst hf
              rw [commitLoad_gen_self, hg]
              exact le_trans hle (le_trans (hfb _) (Nat.le_succ n))
            · rw [commitLoad_folders_other st step.folder step.result f hf]
              exact hle
          · intro f' hf'
            by_cases hfs : f' = step.folder
            · subst hfs
              rw [commitLoad_gen_self, hg]
              have h1 : id.generation ≤ n := le_trans hle (hfb f)
              omega
            · rw [commitLoad_folders_other st step.folder step.result f' hfs]
              exact hne f' hf'
        · obtain ⟨hf, hgq⟩ := mem_stamp_map _ _ _ (f, id) hnew
          simp only at hf hgq
          subst hf
          rw [hg] at hgq
          constructor
          · rw [commitLoad_gen_self, hg, hgq]
          · intro f' hf'
            rw [commitLoad_folders_other st step.folder step.result f' hf', hgq]
            have := hfb f'
            omega
    have hres := ih _ _ _ hinv' (by rw [hlen] at hb; omega)
    have harith : n + (step :: rest).length = (n + 1) + rest.length := by
      rw [hlen]; omega
    rw [harith]
    exact hres

/-- C6: (1) every `load_content` commit bumps the instance's
`content_generation` (`wrapping_add(1)`, modelled as `+1 mod 2^64`),
assigns it as the folder's generation, and publishes a snapshot each of
whose entries is stamped with its index and that generation; (2) in
every execution of fewer than `2^64` commits, an ID whose generation is
older than its owning folder's current generation is rejected:
`try_get_content` returns `None` for it. -/
theorem content_generation_spec :
    (∀ (st : InstanceContentState) (folder : ContentFolder)
       (result : List InstanceContentSummary),
      (commitLoad st folder result).content_generation =
        (st.content_generation + 1) % 2 ^ 64 ∧
      ((commitLoad st folder result).folders folder).generation =
        (st.content_generation + 1) % 2 ^ 64 ∧
      ((commitLoad st folder result).folders folder).summaries =
        some (stampIDs ((st.content_generation + 1) % 2 ^ 64) result) ∧
      (∀ i s, (stampIDs ((st.content_generation + 1) % 2 ^ 64)
          result).get? i = some s →
        s.id = ⟨i, (st.content_generation + 1) % 2 ^ 64⟩)) ∧
    (∀ (trace : List CommitStep), trace.length < 2 ^ 64 →
      ∀ (f : ContentFolder) (id : InstanceContentID),
        (f, id) ∈ (runTrace trace).2 →
        id.generation < ((runTrace trace).1.folders f).generation →
        try_get_content (runTrace trace).1 id = none) := by
  constructor
  · intro st folder result
    refine ⟨commitLoad_cg st folder result, commitLoad_gen_self st folder result,
      commitLoad_summaries_self st folder result, ?_⟩
    intro i s hs
    simp only [stampIDs, List.get?_map] at hs
    cases he : (result.enum).get? i with
    | none => rw [he] at hs; simp at hs
    | some is =>
      rw [he] at hs
      simp only [Option.map_some'] at hs
      have hidx : is.1 = i := by
        have harr := List.enum_get? result i
        rw [he] at harr
        cases hr : result.get? i with
        | none => rw [hr] at harr; simp at harr
        | some a =>
          rw [hr] at harr
          simp only [Option.map_some'] at harr
          have his : is = (i, a) := Option.some_inj.mp harr
          rw [his]
      have hs' := Option.some_inj.mp hs
      rw [← hs', hidx]
  · intro trace hlen f id hmem hlt
    have hinv := runTraceAux_inv trace initialContentState [] 0
      ⟨rfl, by norm_num, fun _ => Nat.le_refl 0, by simp⟩
      (by simpa using hlen)
    obtain ⟨-, -, -, hiss⟩ := hinv
    obtain ⟨hle, hne⟩ := hiss f id hmem
    have hne_all : ∀ f'', ((runTrace trace).1.folders f'').generation ≠
        id.generation := by
      intro f''
      by_cases hf : f'' = f
      · subst hf
        omega
      · exact hne f'' hf
    rw [try_get_content, tryGetAux, if_neg (hne_all .Mods),
      tryGetAux, if_neg (hne_all .ResourcePacks), tryGetAux]

/-- C6 (witness): evaluated on the concrete two-commit trace that
reloads the mods folder twice — the ID issued by the first commit
carries generation 1, the folder is then at generation 2, and the
stale ID resolves to nothing. -/
theorem content_generation_spec_witness :
    ((commitLoad initialContentState .Mods [entryA2]).folders
        ContentFolder.Mods).generation = 1 ∧
    (stampIDs 1 [entryA2]).get? 0 =
      some { entryA2 with id := ⟨0, 1⟩ } ∧
    (ContentFolder.Mods, (⟨0, 1⟩ : InstanceContentID)) ∈
      (runTrace [⟨.Mods, [entryA2]⟩, ⟨.Mods, [entryA2]⟩]).2 ∧
    try_get_content
      (runTrace [⟨.Mods, [entryA2]⟩, ⟨.Mods, [entryA2]⟩]).1 ⟨0, 1⟩ =
      none := by
  refine ⟨?_, by decide, by decide, ?_⟩
  · have h := (content_generation_spec.1 initialContentState .Mods
      [entryA2]).2.1
    simpa using h
  · exact content_generation_spec.2 [⟨.Mods, [entryA2]⟩, ⟨.Mods, [entryA2]⟩]
      (by norm_num) .Mods ⟨0, 1⟩ (by decide) (by decide)

/-! ### C3 — download integrity in `download_file_into_library_inner` -/

/-- C3: for a URL staging whose declared hash parses and whose library
file is not already valid on disk: a non-200 response fails with
`NotOK(status)` leaving the filesystem untouched; a SHA-1 mismatch of
the streamed bytes truncates and deletes the partial library file and
fails with `WrongHash`; a size mismatch (with a matching hash) does the
same with `WrongFilesize`; in both mismatch cases no library file
remains at the library path and no other path — in particular no
instance destination — is touched. -/
theorem download_inner_integrity (env : DownloadEnv) (fs : FS)
    (libDir : String) (ext : Option String) (url sha1 : String)
    (size : Nat) (expected : List Nat)
    (hdec : hexDecode20 sha1 = some expected)
    (hdisk : check_sha1_hash env.sha1fn fs (libraryPath libDir expected ext)
      expected = false) :
    ((env.http url).1 ≠ 200 →
      download_file_into_library_inner env fs libDir ext url sha1 size =
        (fs, .error (.NotOK (env.http url).1))) ∧
    ((env.http url).1 = 200 → env.sha1fn (env.http url).2 ≠ expected →
      (download_file_into_library_inner env fs libDir ext url sha1 size).2 =
        .error .WrongHash ∧
      (download_file_into_library_inner env fs libDir ext url sha1 size).1
        (libraryPath libDir expected ext) = none ∧
      ∀ q, q ≠ libraryPath libDir expected ext →
        (download_file_into_library_inner env fs libDir ext url sha1 size).1 q
          = fs q) ∧
    ((env.http url).1 = 200 → env.sha1fn (env.http url).2 = expected →
      (env.http url).2.length ≠ size →
      (download_file_into_library_inner env fs libDir ext url sha1 size).2 =
        .error .WrongFilesize ∧
      (download_file_into_library_inner env fs libDir ext url sha1 size).1
        (libraryPath libDir expected ext) = none ∧
      ∀ q, q ≠ libraryPath libDir expected ext →
        (download_file_into_library_inner env fs libDir ext url sha1 size).1 q
          = fs q) := by
  refine ⟨?_, ?_, ?_⟩
  · intro hstatus
    unfold download_file_into_library_inner
    rw [hdec]
    dsimp only
    rw [if_neg (by rw [hdisk]; simp), if_pos hstatus]
  · intro hstatus hhash
    unfold download_file_into_library_inner
    rw [hdec]
    dsimp only
    rw [if_neg (by rw [hdisk]; simp), if_neg (by rw [hstatus]; simp),
      if_pos hhash]
    refine ⟨rfl, by simp [fsRemove], ?_⟩
    intro q hq
    simp [fsRemove, fsSet, hq]
  · intro hstatus hhash hsize
    unfold download_file_into_library_inner
    rw [hdec]
    dsimp only
    rw [if_neg (by rw [hdisk]; simp), if_neg (by rw [hstatus]; simp),
      if_neg (by rw [hhash]; simp), if_pos hsize]
    refine ⟨rfl, by simp [fsRemove], ?_⟩
    intro q hq
    simp [fsRemove, fsSet, hq]

/-- C3 (witness): evaluated for a 404 response, a wrong-hash body and a
wrong-size body against the all-zero declared hash. -/
theorem download_inner_integrity_witness :
    (download_file_into_library_inner
      ⟨fun _ => List.replicate 20 1, fun _ => (404, [])⟩ (fun _ => none)
      "lib" none "u" (String.mk (List.replicate 40 '0')) 1).2 =
        .error (.NotOK 404) ∧
    (download_file_into_library_inner
      ⟨fun _ => List.replicate 20 1, fun _ => (200, [7])⟩ (fun _ => none)
      "lib" none "u" (String.mk (List.replicate 40 '0')) 1).2 =
        .error .WrongHash ∧
    (download_file_into_library_inner
      ⟨fun _ => List.replicate 20 1, fun _ => (200, [7])⟩ (fun _ => none)
      "lib" none "u" (String.mk (List.replicate 40 '0')) 1).1
      (libraryPath "lib" (List.replicate 20 0) none) = none ∧
    (download_file_into_library_inner
      ⟨fun _ => List.replicate 20 0, fun _ => (200, [7])⟩ (fun _ => none)
      "lib" none "u" (String.mk (List.replicate 40 '0')) 5).2 =
        .error .WrongFilesize := by
  refine ⟨?_, ?_, ?_, ?_⟩
  · have h := (download_inner_integrity
      ⟨fun _ => List.replicate 20 1, fun _ => (404, [])⟩ (fun _ => none)
      "lib" none "u" (String.mk (List.replicate 40 '0')) 1
      (List.replicate 20 0) (by decide) (by decide)).1 (by decide)
    rw [h]
  · exact ((download_inner_integrity
      ⟨fun _ => List.replicate 20 1, fun _ => (200, [7])⟩ (fun _ => none)
      "lib" none "u" (String.mk (List.replicate 40 '0')) 1
      (List.replicate 20 0) (by decide) (by decide)).2.1 rfl (by decide)).1
  · exact ((download_inner_integrity
      ⟨fun _ => List.replicate 20 1, fun _ => (200, [7])⟩ (fun _ => none)
      "lib" none "u" (String.mk (List.replicate 40 '0')) 1
      (List.replicate 20 0) (by decide) (by decide)).2.1 rfl (by decide)).2.1
  · exact ((download_inner_integrity
      ⟨fun _ => List.replicate 20 0, fun _ => (200, [7])⟩ (fun _ => none)
      "lib" none "u" (String.mk (List.replicate 40 '0')) 5
      (List.replicate 20 0) (by decide) (by decide)).2.2 rfl (by decide)
      (by decide)).1

/-! ### C2 — staging errors abort the commit -/

/-- C2: the commit phase (instance creation, Vanilla-loader update,
source-index update, replace removal, hard-linking) runs exactly when
every file staged successfully; on any staging error the commit is
skipped entirely — destinations, source index and the target instance
untouched — the (first) error is reported through the modal action's
error channel, and the files staged before the failure remain in the
library. -/
theorem install_content_phase_spec {α : Type} (ctx : InstallCtx)
    (content : ContentInstallRequest) (files : List α)
    (stage : α → FS → FS × Except ContentInstallError InstallFromContentLibrary)
    (st : InstallState) :
    (∀ e, (stageLoop stage files st.library).2 = .error e →
      (install_content ctx content files stage st).errorMessage = some e ∧
      (install_content ctx content files stage st).library =
        (stageLoop stage files st.library).1 ∧
      (install_content ctx content files stage st).dest = st.dest ∧
      (install_content ctx content files stage st).sources = st.sources ∧
      (install_content ctx content files stage st).instanceTarget =
        st.instanceTarget) ∧
    (∀ staged, (stageLoop stage files st.library).2 = .ok staged →
      install_content ctx content files stage st =
        commitPhase ctx content staged
          { st with library := (stageLoop stage files st.library).1 }) := by
  constructor
  · intro e he
    unfold install_content
    cases hsl : stageLoop stage files st.library with
    | mk lib' res =>
      rw [hsl] at he
      simp only at he
      subst he
      dsimp only
      exact ⟨rfl, rfl, rfl, rfl, rfl⟩
  · intro staged hst
    unfold install_content
    cases hsl : stageLoop stage files st.library with
    | mk lib' res =>
      rw [hsl] at hst
      simp only at hst
      subst hst
      dsimp only

/-- C2 (witness): a two-file request whose staging writes one library
file and then fails leaves the written file in the library, reports
the error, and creates no destination file; the same request with a
succeeding staging runs the commit phase. -/
theorem install_content_phase_spec_witness :
    (install_content ⟨none, [], "instances"⟩
      ⟨.InstanceTarget, .Fabric, none⟩ [(), ()]
      (fun _ fs => (fsSet fs "lib/aa" [1], .error .WrongHash))
      ⟨fun _ => none, fun _ => none, singletonSources .Manual,
        some ⟨.Vanilla, "i/.minecraft"⟩, none⟩).errorMessage =
      some .WrongHash ∧
    (install_content ⟨none, [], "instances"⟩
      ⟨.InstanceTarget, .Fabric, none⟩ [(), ()]
      (fun _ fs => (fsSet fs "lib/aa" [1], .error .WrongHash))
      ⟨fun _ => none, fun _ => none, singletonSources .Manual,
        some ⟨.Vanilla, "i/.minecraft"⟩, none⟩).dest "i/.minecraft/mods/a.jar" =
      none ∧
    (install_content ⟨none, [], "instances"⟩
      ⟨.InstanceTarget, .Fabric, none⟩ [(), ()]
      (fun _ fs => (fsSet fs "lib/aa" [1], .error .WrongHash))
      ⟨fun _ => none, fun _ => none, singletonSources .Manual,
        some ⟨.Vanilla, "i/.minecraft"⟩, none⟩).library "lib/aa" = some [1] ∧
    install_content ⟨none, [], "instances"⟩
      ⟨.InstanceTarget, .Fabric, none⟩ [()]
      (fun _ fs => (fs, .ok ⟨"lib/aa", none, hash0, "mods/a.jar", .Manual⟩))
      ⟨fun _ => none, fun _ => none, singletonSources .Manual,
        some ⟨.Vanilla, "i/.minecraft"⟩, none⟩ =
      commitPhase ⟨none, [], "instances"⟩ ⟨.InstanceTarget, .Fabric, none⟩
        [⟨"lib/aa", none, hash0, "mods/a.jar", .Manual⟩]
        ⟨fun _ => none, fun _ => none, singletonSources .Manual,
          some ⟨.Vanilla, "i/.minecraft"⟩, none⟩ := by
  refine ⟨?_, ?_, ?_, ?_⟩
  · exact ((install_content_phase_spec ⟨none, [], "instances"⟩
      ⟨.InstanceTarget, .Fabric, none⟩ [(), ()]
      (fun _ fs => (fsSet fs "lib/aa" [1], .error .WrongHash))
      ⟨fun _ => none, fun _ => none, singletonSources .Manual,
        some ⟨.Vanilla, "i/.minecraft"⟩, none⟩).1 .WrongHash rfl).1
  · have h := ((install_content_phase_spec ⟨none, [], "instances"⟩
      ⟨.InstanceTarget, .Fabric, none⟩ [(), ()]
      (fun _ fs => (fsSet fs "lib/aa" [1], .error .WrongHash))
      ⟨fun _ => none, fun _ => none, singletonSources .Manual,
        some ⟨.Vanilla, "i/.minecraft"⟩, none⟩).1 .WrongHash rfl).2.2.1
    rw [h]
  · have h := ((install_content_phase_spec ⟨none, [], "instances"⟩
      ⟨.InstanceTarget, .Fabric, none⟩ [(), ()]
      (fun _ fs => (fsSet fs "lib/aa" [1], .error .WrongHash))
      ⟨fun _ => none, fun _ => none, singletonSources .Manual,
        some ⟨.Vanilla, "i/.minecraft"⟩, none⟩).1 .WrongHash rfl).2.1
    rw [h]
    rfl
  · exact (install_content_phase_spec ⟨none, [], "instances"⟩
      ⟨.InstanceTarget, .Fabric, none⟩ [()]
      (fun _ fs => (fs, .ok ⟨"lib/aa", none, hash0, "mods/a.jar", .Manual⟩))
      ⟨fun _ => none, fun _ => none, singletonSources .Manual,
        some ⟨.Vanilla, "i/.minecraft"⟩, none⟩).2
      [⟨"lib/aa", none, hash0, "mods/a.jar", .Manual⟩] rfl

end Pandora
